import Mathlib

/-!
# NeoPixels: a shallow embedding of the LED-strip equaliser firmware

The definitions below follow `NeoPixels/main.c` (the main variant) function by
function, and `sendByte` of `NeoPixels/Debug/main.c` (the Debug variant, in the
namespace `Debug`).  Conventions of the embedding:

* C integer values are `Int`; a value stored in an 8-bit register or sent on the
  wire is its low byte (`toByte`).
* Hardware output is an explicit trace (`List Event`): writes to the LED port,
  busy-wait delays (in nanoseconds, so `_delay_us(0.7)` is `delay 700`), the
  global interrupt switch, and the equaliser strobe.
* The signedness of plain `char` is chosen by the toolchain (avr-gcc reads it as
  signed unless `-funsigned-char` is given, which Atmel Studio projects pass by
  default).  The C sources do not fix the choice, so it is a parameter
  `PlainChar` of every definition that stores into a plain `char`.
* A step of the controller loop and a timer tick are separate transitions: no
  handler runs inside `displayUpdate`, which masks interrupts.
* Constants of `<avr/io.h>` that the code uses (bit numbers such as `OCIE1A`)
  are parameters.
-/

namespace NeoPixels

/-! ## Constants of the header -/

/-- Number of LEDs on each strip (`#define StripLength 8`). -/
def StripLength : Int := 8

/-- Number of strips on the output port (`#define NumOfStrips 8`). -/
abbrev NumOfStrips : Nat := 8

/-- Accuracy of the ADMUX (`#define Accuracy 255`). -/
def Accuracy : Int := 255

/-- Brightness of the LED (`#define Brightness 255`). -/
def Brightness : Int := 255

/-! ## Machine integers -/

/-- How the toolchain reads plain `char`. -/
inductive PlainChar
  | signed
  | unsigned
  deriving DecidableEq, Repr

/-- Largest value of a plain `char`. -/
def PlainChar.max : PlainChar → Int
  | .signed => 127
  | .unsigned => 255

/-- Conversion of an integer value to plain `char` (8 bits, wrapping). -/
def toChar : PlainChar → Int → Int
  | .signed, x => (x + 128) % 256 - 128
  | .unsigned, x => x % 256

/-- The low byte of an integer value: the bit pattern that a `char` or an 8-bit
register holds, the same for the signed and the unsigned reading. -/
def toByte (x : Int) : Nat := (x % 256).toNat

/-! ## Output trace -/

/-- One observable action of the firmware. -/
inductive Event
  /-- A write `LEDPort = v`. -/
  | port (v : Nat)
  /-- A busy wait `_delay_us`, in nanoseconds. -/
  | delay (ns : Nat)
  /-- Global interrupts off (`cli()`). -/
  | cli
  /-- Global interrupts on (`sei()`). -/
  | sei
  /-- The strobe line (PB0 of the control port) driven high or low. -/
  | strobe (high : Bool)
  /-- An ADC conversion started (`ADCSRA |= 1 << ADSC`). -/
  | startConversion
  deriving DecidableEq, Repr

/-! ## `sendByte` and `sendCol` -/

/-- Bit array `char bit[8]`, as bit patterns. -/
def bit : List Nat := [0x01, 0x02, 0x04, 0x08, 0x10, 0x20, 0x40, 0x80]

/-- The value written by `LEDPort = ( 1 << pin )` to the 8-bit port. -/
def portMask (pin : Nat) : Nat := (1 <<< pin) % 256

/-- The loop of `sendByte`, `for(int j = 7; j > -1; j--)`: the last argument is
`j + 1`, the number of iterations still to run, so the iteration executed first
has index `j`.  `byte & bit[j]` and the comparison with `bit[j]` only depend on
the low byte of `byte`. -/
def sendByteLoop (byte : Int) (pin : Nat) : Nat → List Event
  | 0 => []
  | j + 1 =>
    let comp := toByte byte &&& bit.getD j 0
    (if comp = bit.getD j 0 then
      [Event.port (portMask pin), Event.delay 700, Event.port 0, Event.delay 600]
    else
      [Event.port (portMask pin), Event.delay 350, Event.port 0, Event.delay 800])
      ++ sendByteLoop byte pin j

/-- Function `sendByte(char byte, char pin)`. -/
def sendByte (byte : Int) (pin : Nat) : List Event :=
  sendByteLoop byte pin 8

/-- Function `sendCol(char r, char g, char b, char pin)`. -/
def sendCol (r g b : Int) (pin : Nat) : List Event :=
  sendByte r pin ++ sendByte g pin ++ sendByte b pin

/-! ## Strips, modes and `displayUpdate` -/

/-- Record `struct struct_Strip`: `pin` and `numLEDs` are plain `char`,
`displayNum` is `int`. -/
structure Strip where
  /-- The pin the strip is placed on. -/
  pin : Nat
  /-- Number of LEDs on the strip. -/
  numLEDs : Int
  /-- The amount of LEDs to light up. -/
  displayNum : Int
  deriving DecidableEq, Repr

/-- Display modes, `enum mode`. -/
inductive Mode
  | DEFAULT
  | RAINBOW
  | SHINE
  deriving DecidableEq, Repr

/-- Rainbow colour `char unsigned volatile rCol[3]`: entries 0, 1, 2. -/
structure RCol where
  c0 : Nat
  c1 : Nat
  c2 : Nat
  deriving DecidableEq, Repr

/-- Upper bound on the iterations of a loop `for(char i = 0; i < n; i++)`: a
`char` has 256 values and the loop ends at the first `i` with `i ≥ n`. -/
def charFuel : Nat := 256

/-- Loop of `case DEFAULT` in `displayUpdate`, entered with loop variable `i`;
the first argument after the strip bounds the number of iterations. -/
def defaultLoop (pc : PlainChar) (strip : Strip) : Nat → Int → List Event
  | 0, _ => []
  | fuel + 1, i =>
    if i < strip.numLEDs then
      (if i < strip.displayNum then
        if i < strip.numLEDs - 3 then sendCol 0 Brightness 0 strip.pin
        else if i < strip.numLEDs - 1 then sendCol Brightness Brightness 0 strip.pin
        else sendCol Brightness 0 0 strip.pin
      else
        sendCol 0 0 0 strip.pin)
      ++ defaultLoop pc strip fuel (toChar pc (i + 1))
    else []

/-- Loop of `case SHINE` in `displayUpdate`, entered with loop variable `i` and
counter `j`. -/
def shineLoop (pc : PlainChar) (strip : Strip) (sFactor : Int) :
    Nat → Int → Int → List Event
  | 0, _, _ => []
  | fuel + 1, i, j =>
    if i < strip.numLEDs then
      if i < strip.displayNum then
        if i < strip.displayNum - 3 then
          sendCol 0 0 0 strip.pin ++ shineLoop pc strip sFactor fuel (toChar pc (i + 1)) j
        else if strip.displayNum > 2 then
          let j1 := toChar pc (j + 1)
          sendCol (sFactor * (j1 * j1)) (sFactor * (j1 * j1)) (sFactor * (j1 * j1)) strip.pin
            ++ shineLoop pc strip sFactor fuel (toChar pc (i + 1)) j1
        else
          let j1 := 4
          sendCol (sFactor * j1 * (i + 1)) (sFactor * j1 * (i + 1)) (sFactor * j1 * (i + 1))
              strip.pin
            ++ shineLoop pc strip sFactor fuel (toChar pc (i + 1)) j1
      else
        sendCol 0 0 0 strip.pin ++ shineLoop pc strip sFactor fuel (toChar pc (i + 1)) j
    else []

/-- Loop of `case RAINBOW` in `displayUpdate`. -/
def rainbowLoop (pc : PlainChar) (rCol : RCol) (strip : Strip) : Nat → Int → List Event
  | 0, _ => []
  | fuel + 1, i =>
    if i < strip.numLEDs then
      (if i < strip.displayNum then sendCol rCol.c0 rCol.c1 rCol.c2 strip.pin
      else sendCol 0 0 0 strip.pin)
      ++ rainbowLoop pc rCol strip fuel (toChar pc (i + 1))
    else []

/-- Function `displayUpdate(Strip strip)`, reading the globals `cMode` and
`rCol`. -/
def displayUpdate (pc : PlainChar) (cMode : Mode) (rCol : RCol) (strip : Strip) :
    List Event :=
  let sFactor := toChar pc (Int.tdiv Brightness 9)
  let j := 0
  [Event.cli] ++
  (match cMode with
    | .DEFAULT => defaultLoop pc strip charFuel 0
    | .SHINE => shineLoop pc strip sFactor charFuel 0 j
    | .RAINBOW => rainbowLoop pc rCol strip charFuel 0)
  ++ [Event.sei]

/-! ## Controller state, `setMode`, the ADC handler and the main loop -/

/-- The globals of the program, the strip array of `main`, and the 8-bit timer
interrupt mask register. -/
structure State where
  stripArr : Fin NumOfStrips → Strip
  cMode : Mode
  rCol : RCol
  TIMSK1 : Nat
  ADCflag : Int
  vSize : Int

/-- Function `setMode(char MODE)`; `ocie1a` is the bit number `OCIE1A` of
`<avr/io.h>`.  The complement `~( 1 << OCIE1A )` is taken on the 16-bit `int`
and the result of either assignment is stored in the 8-bit register. -/
def setMode (ocie1a : Nat) (st : State) (MODE : Mode) : State :=
  let st1 := { st with cMode := MODE }
  match st1.cMode with
  | .RAINBOW =>
    let st2 := { st1 with TIMSK1 := (st1.TIMSK1 ||| (1 <<< ocie1a)) % 256 }
    { st2 with rCol := { st2.rCol with c1 := toByte Brightness } }
  | _ => { st1 with TIMSK1 := (st1.TIMSK1 &&& (0xFFFF ^^^ (1 <<< ocie1a))) % 256 }

/-- Function `strobeEqualiser()`. -/
def strobeEqualiser : List Event :=
  [Event.strobe true, Event.delay 18000, Event.strobe false, Event.startConversion,
    Event.delay 54000]

/-- Handler `ISR(ADC_vect)` with `adch` the value of the register `ADCH`. -/
def adcISR (pc : PlainChar) (st : State) (adch : Nat) : State :=
  let st1 := { st with ADCflag := 1 }
  { st1 with vSize := toChar pc (adch : Int) }

/-- The value of `vSize / ( Accuracy / StripLength )`; C division truncates. -/
def numLEDOf (vSize : Int) : Int :=
  Int.tdiv vSize (Int.tdiv Accuracy StripLength)

/-- Body of the loop `for(int i = 0; i < NumOfStrips; i++)` of `main` for strip
`i`, from the point where the wait on `ADCflag` has ended. -/
def loopBody (pc : PlainChar) (st : State) (i : Fin NumOfStrips) : State × List Event :=
  let st1 := { st with ADCflag := 0 }
  let numLED := numLEDOf st1.vSize
  if numLED ≠ (st1.stripArr i).displayNum ∨ st1.cMode = Mode.RAINBOW then
    let strip := { st1.stripArr i with displayNum := numLED }
    let st2 := { st1 with stripArr := Function.update st1.stripArr i strip }
    (st2, strobeEqualiser ++ displayUpdate pc st2.cMode st2.rCol strip)
  else
    (st1, strobeEqualiser)

/-- One step of the controller loop: the conversion started earlier completes
with reading `adch`, its handler runs, the wait ends and the body runs. -/
def controllerStep (pc : PlainChar) (st : State) (i : Fin NumOfStrips) (adch : Nat) :
    State × List Event :=
  loopBody pc (adcISR pc st adch) i

/-- The strip served after strip `i`: the `for` loop restarts inside `while (1)`. -/
def nextStrip (i : Fin NumOfStrips) : Fin NumOfStrips :=
  if h : i.val + 1 < NumOfStrips then ⟨i.val + 1, h⟩ else ⟨0, by decide⟩

/-- The controller loop run on a sequence of ADC readings, starting at strip `i`. -/
def runLoop (pc : PlainChar) : State → Fin NumOfStrips → List Nat → State × List Event
  | st, _, [] => (st, [])
  | st, i, adch :: rest =>
    let r1 := controllerStep pc st i adch
    let r2 := runLoop pc r1.1 (nextStrip i) rest
    (r2.1, r1.2 ++ r2.2)

/-- The state in which `main` enters its loop: globals zero-initialised, strips
set up, `setMode( RAINBOW )`; `timsk1` is the content of `TIMSK1` before. -/
def mainInit (pc : PlainChar) (ocie1a timsk1 : Nat) : State :=
  setMode ocie1a
    { stripArr := fun i =>
        { pin := i.val, numLEDs := toChar pc StripLength, displayNum := 0 }
      cMode := Mode.DEFAULT
      rCol := { c0 := 0, c1 := 0, c2 := 0 }
      TIMSK1 := timsk1
      ADCflag := 0
      vSize := 0 }
    Mode.RAINBOW

/-! ## The timer handler -/

/-- The operator `++` on an `unsigned char`: one more, modulo 256. -/
def incrByte (x : Nat) : Nat := (x + 1) % 256

/-- The operator `--` on an `unsigned char`: one less, modulo 256. -/
def decrByte (x : Nat) : Nat := (x + 255) % 256

/-- First `if` of `ISR(TIMER1_COMPA_vect)`, on `rCol[0] >= Brightness`. -/
def timerStage1 (s : RCol) : RCol :=
  if (s.c0 : Int) ≥ Brightness then
    if s.c2 > 0 then { s with c2 := decrByte s.c2 } else { s with c1 := incrByte s.c1 }
  else s

/-- Second `if` of `ISR(TIMER1_COMPA_vect)`, on `rCol[1] >= Brightness`. -/
def timerStage2 (s : RCol) : RCol :=
  if (s.c1 : Int) ≥ Brightness then
    if s.c0 > 0 then { s with c0 := decrByte s.c0 } else { s with c2 := incrByte s.c2 }
  else s

/-- Third `if` of `ISR(TIMER1_COMPA_vect)`, on `rCol[2] >= Brightness`. -/
def timerStage3 (s : RCol) : RCol :=
  if (s.c2 : Int) ≥ Brightness then
    if s.c1 > 0 then { s with c1 := decrByte s.c1 } else { s with c0 := incrByte s.c0 }
  else s

/-- Handler `ISR(TIMER1_COMPA_vect)`: the three `if` statements in sequence,
each reading the colour left by the one before. -/
def timerISR (s : RCol) : RCol :=
  timerStage3 (timerStage2 (timerStage1 s))

/-! ## The ADC handler as a sequence of writes -/

/-- A write of `ISR(ADC_vect)` to one of its two globals. -/
inductive Write
  | ADCflag (v : Int)
  | vSize (v : Int)
  deriving DecidableEq, Repr

/-- The writes of `ISR(ADC_vect)` in program order: `ADCflag = 1;` and then
`vSize = ADCH;`. -/
def adcISRWrites (pc : PlainChar) (adch : Nat) : List Write :=
  [Write.ADCflag 1, Write.vSize (toChar pc (adch : Int))]

/-- The effect of one write on the state. -/
def applyWrite (st : State) : Write → State
  | .ADCflag v => { st with ADCflag := v }
  | .vSize v => { st with vSize := v }

/-! ## Shine mode, iteration by iteration -/

/-- What one iteration of the Shine loop does: `below` (lit, more than three
from the edge, sends 0), `quadratic j` (sends `sFactor * (j * j)` after `j++`),
`linear j i` (sends `sFactor * j * (i + 1)` after `j = 4`), `blank` (not lit,
sends 0). -/
inductive ShineStep
  | below
  | quadratic (j : Int)
  | linear (j i : Int)
  | blank
  deriving DecidableEq, Repr

/-- The `int` value that the iteration passes to `sendCol` on each channel,
before the conversion to `char`. -/
def ShineStep.intensity (sFactor : Int) : ShineStep → Int
  | .below => 0
  | .quadratic j => sFactor * (j * j)
  | .linear j i => sFactor * j * (i + 1)
  | .blank => 0

/-- The iterations of the Shine loop, branch by branch: the same recursion as
`shineLoop`, recording the branch taken in place of the trace. -/
def shineSteps (pc : PlainChar) (strip : Strip) : Nat → Int → Int → List ShineStep
  | 0, _, _ => []
  | fuel + 1, i, j =>
    if i < strip.numLEDs then
      if i < strip.displayNum then
        if i < strip.displayNum - 3 then
          ShineStep.below :: shineSteps pc strip fuel (toChar pc (i + 1)) j
        else if strip.displayNum > 2 then
          let j1 := toChar pc (j + 1)
          ShineStep.quadratic j1 :: shineSteps pc strip fuel (toChar pc (i + 1)) j1
        else
          let j1 := 4
          ShineStep.linear j1 i :: shineSteps pc strip fuel (toChar pc (i + 1)) j1
      else
        ShineStep.blank :: shineSteps pc strip fuel (toChar pc (i + 1)) j
    else []

/-! ## The Debug variant (`NeoPixels/Debug/main.c`) -/

namespace Debug

/-- The loop of the Debug `sendByte`, `for(int j = 0; j < 8; j++)`: the first
numeric argument is `8 - j`, the number of iterations still to run.  The port
is the same `PORTD`; `POut = 0<<pin` writes 0. -/
def sendByteLoop (byte : Int) (pin : Nat) : Nat → Nat → List Event
  | 0, _ => []
  | n + 1, j =>
    let comp := toByte byte &&& bit.getD j 0
    (if comp = bit.getD j 0 then
      [Event.port (portMask pin), Event.delay 700, Event.port 0, Event.delay 600]
    else
      [Event.port (portMask pin), Event.delay 350, Event.port 0, Event.delay 800])
      ++ sendByteLoop byte pin n (j + 1)

/-- Function `sendByte(char byte, char pin)` of the Debug variant. -/
def sendByte (byte : Int) (pin : Nat) : List Event :=
  sendByteLoop byte pin 8 0

end Debug

/-! ## Specification-side vocabulary -/

/-- The pulse that the timing table prescribes for one bit on line `p`: the
port at `1 << p` for 0.70 us then at 0 for 0.60 us for a one, at `1 << p` for
0.35 us then at 0 for 0.80 us for a zero. -/
def pulseSpec (p : Nat) (one : Bool) : List Event :=
  if one then [Event.port (1 <<< p), Event.delay 700, Event.port 0, Event.delay 600]
  else [Event.port (1 <<< p), Event.delay 350, Event.port 0, Event.delay 800]

/-- Eight pulses for the bits of `b`, bit 7 first. -/
def bytePulsesSpec (p b : Nat) : List Event :=
  [7, 6, 5, 4, 3, 2, 1, 0].flatMap fun k => pulseSpec p (b.testBit k)

/-- A pixel as sent on the wire: the red, green and blue bytes. -/
abbrev Pixel := Nat × Nat × Nat

/-- The trace of a sequence of pixels sent on `pin`, one `sendCol` each, first
pixel first. -/
def sendPixels (pin : Nat) (ps : List Pixel) : List Event :=
  ps.flatMap fun c => sendCol (c.1 : Int) (c.2.1 : Int) (c.2.2 : Int) pin

/-- The pixel at position `i` of a strip of `n` LEDs with `L` lit in Default
mode, in the words of the specification: off from `L` on, otherwise green below
`n - 3`, amber for `n - 3` and `n - 2`, red for `n - 1`. -/
def defaultPixelSpec (n L : Int) (i : Nat) : Pixel :=
  if L ≤ (i : Int) then (0, 0, 0)
  else if (i : Int) < n - 3 then (0, Brightness.toNat, 0)
  else if (i : Int) < n - 1 then (Brightness.toNat, Brightness.toNat, 0)
  else (Brightness.toNat, 0, 0)

/-- The pixel at position `i` with `L` lit in Rainbow mode: the shared colour
below `L`, off from `L` on. -/
def rainbowPixelSpec (rc : RCol) (L : Int) (i : Nat) : Pixel :=
  if (i : Int) < L then (rc.c0, rc.c1, rc.c2) else (0, 0, 0)

/-- The intensity that Shine mode computes for position `i` with `L` lit, before
it is cut to 8 bits: zero from `L` on and below `L - 3`; for `L > 2` the scale
28 = Brightness / 9 times the square of the counter, which is `i - L + 4` at
position `i`; for `L ≤ 2` the linear value `28 * 4 * (i + 1)`. -/
def shineIntensity (L : Int) (i : Nat) : Int :=
  if L ≤ (i : Int) then 0
  else if (i : Int) < L - 3 then 0
  else if 2 < L then 28 * (((i : Int) - L + 4) * ((i : Int) - L + 4))
  else 28 * 4 * ((i : Int) + 1)

/-- The pixel that Shine mode sends for position `i`: the low byte of the
intensity on all three channels. -/
def shinePixelSpec (L : Int) (i : Nat) : Pixel :=
  (toByte (shineIntensity L i), toByte (shineIntensity L i), toByte (shineIntensity L i))

/-- The counter `j` of Shine mode on entry to iteration `i`, when more than two
LEDs are lit. -/
def shineCounter (L : Int) (i : Nat) : Int :=
  if (i : Int) ≤ L - 3 then 0 else if (i : Int) ≤ L then (i : Int) - (L - 3) else 3

/-- The mapping from an ADC reading to the value of `numLED`: the handler
stores the reading in the plain `char` `vSize`, the loop body divides it. -/
def sampleToLitCount (pc : PlainChar) (adch : Nat) : Int :=
  numLEDOf (toChar pc (adch : Int))

/-- The condition under which the loop body redraws strip `i`: the new count
differs from the stored one, or the mode is Rainbow. -/
def redrawNeeded (st : State) (i : Fin NumOfStrips) : Prop :=
  numLEDOf st.vSize ≠ (st.stripArr i).displayNum ∨ st.cMode = Mode.RAINBOW

instance (st : State) (i : Fin NumOfStrips) : Decidable (redrawNeeded st i) :=
  inferInstanceAs
    (Decidable (numLEDOf st.vSize ≠ (st.stripArr i).displayNum ∨ st.cMode = Mode.RAINBOW))

/-- Every strip has `StripLength` LEDs and a lit count between 0 and that. -/
def StripsInRange (st : State) : Prop :=
  ∀ k : Fin NumOfStrips, (st.stripArr k).numLEDs = StripLength ∧
    0 ≤ (st.stripArr k).displayNum ∧ (st.stripArr k).displayNum ≤ (st.stripArr k).numLEDs

instance (st : State) : Decidable (StripsInRange st) :=
  inferInstanceAs (Decidable (∀ k : Fin NumOfStrips, (st.stripArr k).numLEDs = StripLength ∧
    0 ≤ (st.stripArr k).displayNum ∧ (st.stripArr k).displayNum ≤ (st.stripArr k).numLEDs))

/-- The seed of the rainbow colour: green at Brightness, red and blue at 0. -/
def rainbowSeed : RCol := { c0 := 0, c1 := toByte Brightness, c2 := 0 }

/-- Number of timer ticks in one turn of the colour wheel from the seed. -/
def wheelPeriod : Nat := 1528

/-- The rainbow colour `n` ticks after the seed, for `n` up to one period:
blue rises, green falls, red rises, blue falls, green rises, red falls. -/
def wheelState (n : Nat) : RCol :=
  if n ≤ 254 then { c0 := 0, c1 := 255, c2 := n }
  else if n ≤ 509 then { c0 := 0, c1 := 509 - n, c2 := 255 }
  else if n ≤ 764 then { c0 := n - 509, c1 := 0, c2 := 255 }
  else if n ≤ 1019 then { c0 := 255, c1 := 0, c2 := 1019 - n }
  else if n ≤ 1273 then { c0 := 255, c1 := n - 1019, c2 := 0 }
  else { c0 := 1528 - n, c1 := 255, c2 := 0 }

/-- A channel value `y` is `x` unchanged, `x` plus one or `x` minus one in true
arithmetic: what `++` and `--` give unless they wrap around 8 bits. -/
def StepExact (x y : Nat) : Prop := y = x ∨ y = x + 1 ∨ y + 1 = x

instance (x y : Nat) : Decidable (StepExact x y) :=
  inferInstanceAs (Decidable (y = x ∨ y = x + 1 ∨ y + 1 = x))

/-- No channel wraps between colour `a` and colour `b`. -/
def NoWrap (a b : RCol) : Prop :=
  StepExact a.c0 b.c0 ∧ StepExact a.c1 b.c1 ∧ StepExact a.c2 b.c2

instance (a b : RCol) : Decidable (NoWrap a b) :=
  inferInstanceAs (Decidable (StepExact a.c0 b.c0 ∧ StepExact a.c1 b.c1 ∧ StepExact a.c2 b.c2))

/-- An event of a pulse: a port write or a delay. -/
def isPulseEvent : Event → Bool
  | .port _ => true
  | .delay _ => true
  | _ => false

/-- The iteration of the Shine loop at position `i` with `L` lit, in closed
form: blank from `L` on, `below` under `L - 3`; for `L > 2` quadratic with the
counter at `i - L + 4`; for `L ≤ 2` linear. -/
def shineStepSpec (L : Int) (i : Nat) : ShineStep :=
  if L ≤ (i : Int) then ShineStep.blank
  else if (i : Int) < L - 3 then ShineStep.below
  else if 2 < L then ShineStep.quadratic ((i : Int) - L + 4)
  else ShineStep.linear 4 (i : Int)

/-- The trace of a list of Shine iterations on `pin` with scale `sFactor`. -/
def sendShineSteps (sFactor : Int) (pin : Nat) (steps : List ShineStep) : List Event :=
  steps.flatMap fun s =>
    sendCol (s.intensity sFactor) (s.intensity sFactor) (s.intensity sFactor) pin

/-- The eight pulses of the main `sendByte`, as a list of pulses, bit 7 first. -/
def mainPulses (p b : Nat) : List (List Event) :=
  [7, 6, 5, 4, 3, 2, 1, 0].map fun k => pulseSpec p (b.testBit k)

/-! ## Lemmas on bytes -/

theorem toByte_natCast (b : Nat) (hb : b < 256) : toByte (b : Int) = b := by
  unfold toByte
  omega

theorem toByte_sub_256 (b : Nat) (hb : b < 256) : toByte ((b : Int) - 256) = b := by
  unfold toByte
  omega

theorem and_two_pow_eq_iff (n k : Nat) : n &&& 2 ^ k = 2 ^ k ↔ n.testBit k = true := by
  rw [Nat.and_two_pow]
  cases h : n.testBit k
  · simpa [Bool.toNat] using (Nat.two_pow_pos k).ne
  · simp [Bool.toNat]

theorem portMask_eq (p : Nat) (hp : p ≤ 7) : portMask p = 1 <<< p := by
  unfold portMask
  interval_cases p <;> rfl

theorem sendByte_eq_of_toByte (x : Int) (b p : Nat) (hx : toByte x = b) (hp : p ≤ 7) :
    sendByte x p = bytePulsesSpec p b := by
  have h7 := and_two_pow_eq_iff b 7
  have h6 := and_two_pow_eq_iff b 6
  have h5 := and_two_pow_eq_iff b 5
  have h4 := and_two_pow_eq_iff b 4
  have h3 := and_two_pow_eq_iff b 3
  have h2 := and_two_pow_eq_iff b 2
  have h1 := and_two_pow_eq_iff b 1
  have h0 := and_two_pow_eq_iff b 0
  norm_num at h7 h6 h5 h4 h3 h2 h1 h0
  simp only [sendByte, sendByteLoop, bit, List.getD_cons_succ, List.getD_cons_zero, hx,
    portMask_eq p hp, bytePulsesSpec, pulseSpec, List.flatMap_cons, List.flatMap_nil,
    h7, h6, h5, h4, h3, h2, h1, h0]
  simp

theorem port_mem_bytePulsesSpec (p b v : Nat) (h : Event.port v ∈ bytePulsesSpec p b) :
    v = 1 <<< p ∨ v = 0 := by
  unfold bytePulsesSpec at h
  simp only [List.mem_flatMap] at h
  obtain ⟨k, _, hk⟩ := h
  unfold pulseSpec at hk
  split at hk <;> simp at hk <;> tauto

theorem length_bytePulsesSpec (p b : Nat) : (bytePulsesSpec p b).length = 32 := by
  simp only [bytePulsesSpec, pulseSpec, List.flatMap_cons, List.flatMap_nil]
  repeat' split
  all_goals rfl

theorem length_sendByteLoop (x : Int) (p n : Nat) : (sendByteLoop x p n).length = 4 * n := by
  induction n with
  | zero => rfl
  | succ n ih =>
    unfold sendByteLoop
    simp only [List.length_append, ih]
    split <;> simp <;> omega

theorem length_sendCol (r g b : Int) (p : Nat) : (sendCol r g b p).length = 96 := by
  simp [sendCol, sendByte, length_sendByteLoop]

theorem sendByteLoop_congr (x y : Int) (p n : Nat) (h : toByte x = toByte y) :
    sendByteLoop x p n = sendByteLoop y p n := by
  induction n with
  | zero => rfl
  | succ n ih => simp only [sendByteLoop, h, ih]

theorem sendCol_congr (r g b r1 g1 b1 : Int) (p : Nat) (hr : toByte r = toByte r1)
    (hg : toByte g = toByte g1) (hb : toByte b = toByte b1) :
    sendCol r g b p = sendCol r1 g1 b1 p := by
  simp only [sendCol, sendByte, sendByteLoop_congr r r1 p 8 hr, sendByteLoop_congr g g1 p 8 hg,
    sendByteLoop_congr b b1 p 8 hb]

theorem toByte_toByte (x : Int) : toByte ((toByte x : Nat) : Int) = toByte x := by
  unfold toByte
  omega

theorem toChar_of_range (pc : PlainChar) (x : Int) (h0 : 0 ≤ x) (h1 : x ≤ pc.max) :
    toChar pc x = x := by
  cases pc <;> simp only [PlainChar.max] at h1 <;> simp only [toChar] <;> omega

theorem sendPixels_cons (pin : Nat) (c : Pixel) (ps : List Pixel) :
    sendPixels pin (c :: ps) = sendCol (c.1 : Int) (c.2.1 : Int) (c.2.2 : Int) pin
      ++ sendPixels pin ps := by
  simp [sendPixels]

theorem length_sendPixels (pin : Nat) (ps : List Pixel) :
    (sendPixels pin ps).length = 96 * ps.length := by
  induction ps with
  | nil => rfl
  | cons c ps ih => rw [sendPixels_cons, List.length_append, length_sendCol, ih, List.length_cons]; ring

/-- The Default loop entered at `i` with `k` positions left sends the pixels of
the specification for positions `i .. i + k - 1`. -/
theorem defaultLoop_eq (pc : PlainChar) (pin : Nat) (n L : Int) (hn : n ≤ pc.max) (k : Nat) :
    ∀ (fuel i : Nat), (i : Int) + k = n → k < fuel →
      defaultLoop pc ⟨pin, n, L⟩ fuel (i : Int)
        = sendPixels pin ((List.range' i k).map (defaultPixelSpec n L)) := by
  induction k with
  | zero =>
    intro fuel i hi hf
    obtain ⟨f, rfl⟩ : ∃ f, fuel = f + 1 := ⟨fuel - 1, by omega⟩
    have : ¬ ((i : Int) < n) := by omega
    simp [defaultLoop, this, sendPixels]
  | succ k ih =>
    intro fuel i hi hf
    obtain ⟨f, rfl⟩ : ∃ f, fuel = f + 1 := ⟨fuel - 1, by omega⟩
    have hlt : (i : Int) < n := by omega
    have hc : toChar pc ((i : Int) + 1) = ((i + 1 : Nat) : Int) := by
      rw [toChar_of_range pc _ (by omega) (by omega)]; push_cast; rfl
    have hrec := ih f (i + 1) (by push_cast; omega) (by omega)
    rw [List.range'_succ, List.map_cons, sendPixels_cons, ← hrec]
    simp only [defaultLoop, hlt, if_true, hc]
    congr 1
    unfold defaultPixelSpec
    simp only [Brightness]
    split_ifs <;> first | rfl | omega

/-- The Rainbow loop entered at `i` with `k` positions left. -/
theorem rainbowLoop_eq (pc : PlainChar) (rc : RCol) (pin : Nat) (n L : Int) (hn : n ≤ pc.max)
    (k : Nat) :
    ∀ (fuel i : Nat), (i : Int) + k = n → k < fuel →
      rainbowLoop pc rc ⟨pin, n, L⟩ fuel (i : Int)
        = sendPixels pin ((List.range' i k).map (rainbowPixelSpec rc L)) := by
  induction k with
  | zero =>
    intro fuel i hi hf
    obtain ⟨f, rfl⟩ : ∃ f, fuel = f + 1 := ⟨fuel - 1, by omega⟩
    have : ¬ ((i : Int) < n) := by omega
    simp [rainbowLoop, this, sendPixels]
  | succ k ih =>
    intro fuel i hi hf
    obtain ⟨f, rfl⟩ : ∃ f, fuel = f + 1 := ⟨fuel - 1, by omega⟩
    have hlt : (i : Int) < n := by omega
    have hc : toChar pc ((i : Int) + 1) = ((i + 1 : Nat) : Int) := by
      rw [toChar_of_range pc _ (by omega) (by omega)]; push_cast; rfl
    have hrec := ih f (i + 1) (by push_cast; omega) (by omega)
    rw [List.range'_succ, List.map_cons, sendPixels_cons, ← hrec]
    simp only [rainbowLoop, hlt, if_true, hc]
    congr 1
    unfold rainbowPixelSpec
    split_ifs <;> rfl

theorem max_lt_charFuel (pc : PlainChar) (n : Int) (hn : n ≤ pc.max) : n.toNat < charFuel := by
  cases pc <;> simp only [PlainChar.max] at hn <;> simp only [charFuel] <;> omega

theorem sFactor_eq (pc : PlainChar) : toChar pc (Int.tdiv Brightness 9) = 28 := by
  cases pc <;> decide

theorem sendCol_grey (x v : Int) (pin : Nat) (h : x = v) :
    sendCol x x x pin
      = sendCol ((toByte v : Nat) : Int) ((toByte v : Nat) : Int) ((toByte v : Nat) : Int) pin := by
  subst h
  exact sendCol_congr _ _ _ _ _ _ pin (toByte_toByte x).symm (toByte_toByte x).symm
    (toByte_toByte x).symm

/-- The Shine loop entered at `i` with `k` positions left and the counter at its
expected value sends the pixels `shinePixelSpec` for positions `i .. i + k - 1`. -/
theorem shineLoop_eq (pc : PlainChar) (pin : Nat) (n L : Int) (hn : n ≤ pc.max) (k : Nat) :
    ∀ (fuel i : Nat) (j : Int), (i : Int) + k = n → k < fuel →
      (2 < L → j = shineCounter L i) →
      shineLoop pc ⟨pin, n, L⟩ 28 fuel (i : Int) j
        = sendPixels pin ((List.range' i k).map (shinePixelSpec L)) := by
  induction k with
  | zero =>
    intro fuel i j hi hf _
    obtain ⟨f, rfl⟩ : ∃ f, fuel = f + 1 := ⟨fuel - 1, by omega⟩
    have : ¬ ((i : Int) < n) := by omega
    simp [shineLoop, this, sendPixels]
  | succ k ih =>
    intro fuel i j hi hf hj
    obtain ⟨f, rfl⟩ : ∃ f, fuel = f + 1 := ⟨fuel - 1, by omega⟩
    have hlt : (i : Int) < n := by omega
    have hc : toChar pc ((i : Int) + 1) = ((i + 1 : Nat) : Int) := by
      rw [toChar_of_range pc _ (by omega) (by omega)]; push_cast; rfl
    rw [List.range'_succ, List.map_cons, sendPixels_cons]
    simp only [shinePixelSpec]
    by_cases h1 : (i : Int) < L
    · by_cases h2 : (i : Int) < L - 3
      · have hv : shineIntensity L i = 0 := by
          unfold shineIntensity; rw [if_neg (by omega), if_pos h2]
        have hrec := ih f (i + 1) j (by push_cast; omega) (by omega)
          (fun h => by rw [hj h]; unfold shineCounter; push_cast; split_ifs <;> omega)
        simp only [shineLoop, hlt, h1, h2, if_true, hc, hrec]
        rw [sendCol_grey 0 _ pin hv.symm]
      · by_cases h3 : 2 < L
        · have hjv : j = (i : Int) - (L - 3) := by
            rw [hj h3]; unfold shineCounter; split_ifs <;> omega
          have hj1 : toChar pc (j + 1) = (i : Int) - L + 4 := by
            rw [toChar_of_range pc _ (by omega) (by cases pc <;> simp only [PlainChar.max] <;> omega)]
            omega
          have hv : shineIntensity L i = 28 * (((i : Int) - L + 4) * ((i : Int) - L + 4)) := by
            unfold shineIntensity; rw [if_neg (by omega), if_neg h2, if_pos h3]
          have hrec := ih f (i + 1) ((i : Int) - L + 4) (by push_cast; omega) (by omega)
            (fun _ => by unfold shineCounter; push_cast; split_ifs <;> omega)
          have h3g : L > 2 := h3
          simp only [shineLoop, hlt, h1, h2, h3g, if_true, if_false, hc, hj1, hrec]
          rw [sendCol_grey _ _ pin hv.symm]
        · have hv : shineIntensity L i = 28 * 4 * ((i : Int) + 1) := by
            unfold shineIntensity; rw [if_neg (by omega), if_neg h2, if_neg h3]
          have hrec := ih f (i + 1) 4 (by push_cast; omega) (by omega)
            (fun h => absurd h h3)
          have h3g : ¬ (L > 2) := h3
          simp only [shineLoop, hlt, h1, h2, h3g, if_true, if_false, hc, hrec]
          rw [sendCol_grey _ _ pin hv.symm]
    · have hv : shineIntensity L i = 0 := by
        unfold shineIntensity; rw [if_pos (by omega)]
      have hrec := ih f (i + 1) j (by push_cast; omega) (by omega)
        (fun h => by rw [hj h]; unfold shineCounter; push_cast; split_ifs <;> omega)
      simp only [shineLoop, hlt, h1, if_true, if_false, hc, hrec]
      rw [sendCol_grey 0 _ pin hv.symm]

/-- The values that `shineIntensity` takes on a lit position, by distance to the
lit edge. -/
theorem shineIntensity_table (L : Int) (i : Nat) (hi : (i : Int) < L) :
    ((i : Int) < L - 3 ∧ shineIntensity L i = 0) ∨
    (2 < L ∧ (i : Int) = L - 3 ∧ shineIntensity L i = 28) ∨
    (2 < L ∧ (i : Int) = L - 2 ∧ shineIntensity L i = 112) ∨
    (2 < L ∧ (i : Int) = L - 1 ∧ shineIntensity L i = 252) ∨
    (L ≤ 2 ∧ i = 0 ∧ shineIntensity L i = 112) ∨
    (L ≤ 2 ∧ i = 1 ∧ shineIntensity L i = 224) := by
  unfold shineIntensity
  rw [if_neg (by omega)]
  by_cases h2 : (i : Int) < L - 3
  · left; exact ⟨h2, by rw [if_pos h2]⟩
  · rw [if_neg h2]
    by_cases h3 : 2 < L
    · rw [if_pos h3]
      have : (i : Int) - L + 4 = 1 ∨ (i : Int) - L + 4 = 2 ∨ (i : Int) - L + 4 = 3 := by omega
      rcases this with h | h | h
      · right; left; exact ⟨h3, by omega, by rw [h]; rfl⟩
      · right; right; left; exact ⟨h3, by omega, by rw [h]; rfl⟩
      · right; right; right; left; exact ⟨h3, by omega, by rw [h]; rfl⟩
    · rw [if_neg h3]
      have : i = 0 ∨ i = 1 := by omega
      rcases this with h | h
      · right; right; right; right; left; exact ⟨by omega, h, by rw [h]; rfl⟩
      · right; right; right; right; right; exact ⟨by omega, h, by rw [h]; rfl⟩

theorem divisor_eq : Int.tdiv Accuracy StripLength = 31 := by decide

theorem sampleToLitCount_unsigned (s : Nat) (hs : s < 256) :
    sampleToLitCount PlainChar.unsigned s = ((s / 31 : Nat) : Int) := by
  simp only [sampleToLitCount, numLEDOf, toChar]
  rw [divisor_eq]
  have h : (s : Int) % 256 = (s : Int) := by omega
  rw [h, Int.tdiv_eq_ediv (by omega) (by omega)]
  omega

/-- With plain `char` signed, a reading of 128 or more is stored as a negative
value and the count is the truncated quotient of `s - 256`. -/
theorem sampleToLitCount_signed_high (s : Nat) (h0 : 128 ≤ s) (hs : s < 256) :
    sampleToLitCount PlainChar.signed s = -(((256 - s) / 31 : Nat) : Int) := by
  simp only [sampleToLitCount, numLEDOf, toChar]
  rw [divisor_eq]
  have h : ((s : Int) + 128) % 256 - 128 = -((256 - s : Nat) : Int) := by omega
  rw [h, Int.neg_tdiv, Int.tdiv_eq_ediv (by omega) (by omega)]
  omega

theorem loopBody_displayNum (pc : PlainChar) (st : State) (i : Fin NumOfStrips) :
    ((loopBody pc st i).1.stripArr i).displayNum = numLEDOf st.vSize := by
  unfold loopBody
  simp only
  split_ifs with h
  · simp [Function.update_same]
  · rw [not_or, not_not] at h
    exact h.1.symm

theorem loopBody_numLEDs (pc : PlainChar) (st : State) (i k : Fin NumOfStrips) :
    ((loopBody pc st i).1.stripArr k).numLEDs = (st.stripArr k).numLEDs := by
  unfold loopBody
  simp only
  split_ifs with h
  · by_cases hk : k = i
    · subst hk; simp [Function.update_same]
    · simp [Function.update_noteq hk]
  · rfl

theorem loopBody_other (pc : PlainChar) (st : State) (i k : Fin NumOfStrips) (hk : k ≠ i) :
    (loopBody pc st i).1.stripArr k = st.stripArr k := by
  unfold loopBody
  simp only
  split_ifs with h
  · simp [Function.update_noteq hk]
  · rfl

theorem controllerStep_displayNum (pc : PlainChar) (st : State) (i : Fin NumOfStrips)
    (s : Nat) :
    ((controllerStep pc st i s).1.stripArr i).displayNum = sampleToLitCount pc s := by
  unfold controllerStep
  rw [loopBody_displayNum]
  rfl

theorem controllerStep_inRange (st : State) (i : Fin NumOfStrips) (s : Nat) (hs : s < 256)
    (h : StripsInRange st) : StripsInRange (controllerStep PlainChar.unsigned st i s).1 := by
  intro k
  have hn : ((controllerStep PlainChar.unsigned st i s).1.stripArr k).numLEDs = StripLength := by
    unfold controllerStep
    rw [loopBody_numLEDs]
    exact (h k).1
  refine ⟨hn, ?_⟩
  rw [hn]
  by_cases hk : k = i
  · subst hk
    rw [controllerStep_displayNum, sampleToLitCount_unsigned s hs]
    simp only [StripLength]
    omega
  · have : (controllerStep PlainChar.unsigned st i s).1.stripArr k = st.stripArr k := by
      unfold controllerStep
      rw [loopBody_other _ _ _ _ hk]
      rfl
    rw [this]
    have := h k
    rw [this.1] at this
    exact this.2

theorem runLoop_inRange (readings : List Nat) :
    ∀ (st : State) (i : Fin NumOfStrips), (∀ s ∈ readings, s < 256) → StripsInRange st →
      StripsInRange (runLoop PlainChar.unsigned st i readings).1 := by
  induction readings with
  | nil => intro st i _ h; exact h
  | cons s rest ih =>
    intro st i hr h
    simp only [runLoop]
    exact ih _ _ (fun x hx => hr x (List.mem_cons_of_mem _ hx))
      (controllerStep_inRange st i s (hr s (List.mem_cons_self _ _)) h)

theorem mainInit_inRange (ocie1a timsk1 : Nat) :
    StripsInRange (mainInit PlainChar.unsigned ocie1a timsk1) := by
  intro k
  simp [mainInit, setMode, toChar, StripLength]

theorem cli_not_mem_strobeEqualiser : Event.cli ∉ strobeEqualiser := by decide

theorem testBit_setBit_byte (t k b : Nat) (hb : b < 8) :
    ((t ||| (1 <<< k)) % 256).testBit b = (t.testBit b || decide (k = b)) := by
  have e1 : (256 : Nat) = 2 ^ 8 := rfl
  rw [e1, Nat.testBit_mod_two_pow, Nat.testBit_or, Nat.one_shiftLeft, Nat.testBit_two_pow]
  simp [hb]

theorem testBit_clearBit_byte (t k b : Nat) (hb : b < 8) :
    ((t &&& (0xFFFF ^^^ (1 <<< k))) % 256).testBit b = (t.testBit b && !decide (k = b)) := by
  have e1 : (256 : Nat) = 2 ^ 8 := rfl
  have e2 : (0xFFFF : Nat) = 2 ^ 16 - 1 := rfl
  have hb16 : b < 16 := by omega
  rw [e1, e2, Nat.testBit_mod_two_pow, Nat.testBit_and, Nat.testBit_xor,
    Nat.testBit_two_pow_sub_one, Nat.one_shiftLeft, Nat.testBit_two_pow]
  simp [hb, hb16]

/-! ## Lemmas on the colour wheel -/

theorem timerStage1_mk (a b c : Nat) :
    timerStage1 ⟨a, b, c⟩ =
      if 255 ≤ a then (if 0 < c then ⟨a, b, (c + 255) % 256⟩ else ⟨a, (b + 1) % 256, c⟩)
      else ⟨a, b, c⟩ := by
  simp only [timerStage1, Brightness, incrByte, decrByte]
  split_ifs <;> first | rfl | omega

theorem timerStage2_mk (a b c : Nat) :
    timerStage2 ⟨a, b, c⟩ =
      if 255 ≤ b then (if 0 < a then ⟨(a + 255) % 256, b, c⟩ else ⟨a, b, (c + 1) % 256⟩)
      else ⟨a, b, c⟩ := by
  simp only [timerStage2, Brightness, incrByte, decrByte]
  split_ifs <;> first | rfl | omega

theorem timerStage3_mk (a b c : Nat) :
    timerStage3 ⟨a, b, c⟩ =
      if 255 ≤ c then (if 0 < b then ⟨a, (b + 255) % 256, c⟩ else ⟨(a + 1) % 256, b, c⟩)
      else ⟨a, b, c⟩ := by
  simp only [timerStage3, Brightness, incrByte, decrByte]
  split_ifs <;> first | rfl | omega

theorem wheelState_zero : wheelState 0 = rainbowSeed := by decide

/-- One tick moves the colour one position along the wheel. -/
theorem timerISR_wheelState (m : Nat) (h : m < 1528) :
    timerISR (wheelState m) = wheelState ((m + 1) % 1528) := by
  by_cases h1 : m = 1527
  · subst h1
    decide
  · have hm : (m + 1) % 1528 = m + 1 := by omega
    rw [hm]
    unfold wheelState
    split_ifs <;> try omega
    all_goals (rw [timerISR, timerStage1_mk]; split_ifs <;> try omega)
    all_goals (rw [timerStage2_mk]; split_ifs <;> try omega)
    all_goals (rw [timerStage3_mk]; split_ifs <;> try omega)
    all_goals (rw [RCol.mk.injEq]; omega)

theorem iterate_timerISR_seed (n : Nat) :
    timerISR^[n] rainbowSeed = wheelState (n % 1528) := by
  induction n with
  | zero => exact wheelState_zero.symm
  | succ n ih =>
    rw [Function.iterate_succ_apply', ih, timerISR_wheelState _ (Nat.mod_lt _ (by decide))]
    congr 1
    omega

theorem wheelState_bounds (m : Nat) (h : m < 1528) :
    (wheelState m).c0 ≤ 255 ∧ (wheelState m).c1 ≤ 255 ∧ (wheelState m).c2 ≤ 255 ∧
    ((wheelState m).c0 = 255 ∨ (wheelState m).c1 = 255 ∨ (wheelState m).c2 = 255) ∧
    ((wheelState m).c0 = 0 ∨ (wheelState m).c1 = 0 ∨ (wheelState m).c2 = 0) := by
  unfold wheelState
  split_ifs <;> dsimp only <;> omega

theorem wheelState_noWrap (m : Nat) (h : m < 1528) :
    NoWrap (wheelState m) (timerStage1 (wheelState m)) ∧
    NoWrap (timerStage1 (wheelState m)) (timerStage2 (timerStage1 (wheelState m))) ∧
    NoWrap (timerStage2 (timerStage1 (wheelState m))) (timerISR (wheelState m)) := by
  unfold wheelState
  split_ifs
  all_goals (rw [timerISR, timerStage1_mk]; split_ifs <;> try omega)
  all_goals (rw [timerStage2_mk]; split_ifs <;> try omega)
  all_goals (rw [timerStage3_mk]; split_ifs <;> try omega)
  all_goals (unfold NoWrap StepExact; dsimp only; omega)

theorem wheelState_tick_exact (m : Nat) (h : m < 1528) :
    NoWrap (wheelState m) (timerISR (wheelState m)) := by
  unfold wheelState
  split_ifs
  all_goals (rw [timerISR, timerStage1_mk]; split_ifs <;> try omega)
  all_goals (rw [timerStage2_mk]; split_ifs <;> try omega)
  all_goals (rw [timerStage3_mk]; split_ifs <;> try omega)
  all_goals (unfold NoWrap StepExact; dsimp only; omega)

theorem wheelState_ne_seed (m : Nat) (h0 : 0 < m) (h : m < 1528) :
    wheelState m ≠ rainbowSeed := by
  have hs : rainbowSeed = { c0 := 0, c1 := 255, c2 := 0 } := by decide
  rw [hs]
  unfold wheelState
  split_ifs <;> simp only [ne_eq, RCol.mk.injEq] <;> omega

/-! ## Lemmas on `displayUpdate` -/

theorem displayUpdate_default (pc : PlainChar) (rc : RCol) (pin : Nat) (n L : Int)
    (hn : n ≤ pc.max) :
    displayUpdate pc Mode.DEFAULT rc ⟨pin, n, L⟩ =
      [Event.cli] ++ sendPixels pin ((List.range n.toNat).map (defaultPixelSpec n L))
        ++ [Event.sei] := by
  unfold displayUpdate
  simp only
  congr 2
  by_cases h0 : 0 ≤ n
  · have := defaultLoop_eq pc pin n L hn n.toNat charFuel 0 (by omega) (max_lt_charFuel pc n hn)
    rw [List.range_eq_range']
    exact this
  · have hz : n.toNat = 0 := by omega
    have : ¬ ((0 : Int) < n) := by omega
    simp [charFuel, defaultLoop, this, hz, sendPixels]

theorem displayUpdate_rainbow (pc : PlainChar) (rc : RCol) (pin : Nat) (n L : Int)
    (hn : n ≤ pc.max) :
    displayUpdate pc Mode.RAINBOW rc ⟨pin, n, L⟩ =
      [Event.cli] ++ sendPixels pin ((List.range n.toNat).map (rainbowPixelSpec rc L))
        ++ [Event.sei] := by
  unfold displayUpdate
  simp only
  congr 2
  by_cases h0 : 0 ≤ n
  · have := rainbowLoop_eq pc rc pin n L hn n.toNat charFuel 0 (by omega)
      (max_lt_charFuel pc n hn)
    rw [List.range_eq_range']
    exact this
  · have hz : n.toNat = 0 := by omega
    have : ¬ ((0 : Int) < n) := by omega
    simp [charFuel, rainbowLoop, this, hz, sendPixels]

theorem displayUpdate_shine (pc : PlainChar) (rc : RCol) (pin : Nat) (n L : Int)
    (hn : n ≤ pc.max) :
    displayUpdate pc Mode.SHINE rc ⟨pin, n, L⟩ =
      [Event.cli] ++ sendPixels pin ((List.range n.toNat).map (shinePixelSpec L))
        ++ [Event.sei] := by
  unfold displayUpdate
  simp only [sFactor_eq]
  congr 2
  by_cases h0 : 0 ≤ n
  · have := shineLoop_eq pc pin n L hn n.toNat charFuel 0 0 (by omega)
      (max_lt_charFuel pc n hn) (fun h => by unfold shineCounter; split_ifs <;> omega)
    rw [List.range_eq_range']
    exact this
  · have hz : n.toNat = 0 := by omega
    have : ¬ ((0 : Int) < n) := by omega
    simp [charFuel, shineLoop, this, hz, sendPixels]

/-- The trace of the Shine loop is the trace of its iterations. -/
theorem shineLoop_eq_steps (pc : PlainChar) (strip : Strip) (sFactor : Int) (fuel : Nat) :
    ∀ (i j : Int), shineLoop pc strip sFactor fuel i j
      = sendShineSteps sFactor strip.pin (shineSteps pc strip fuel i j) := by
  induction fuel with
  | zero => intro i j; rfl
  | succ f ih =>
    intro i j
    simp only [shineLoop, shineSteps]
    split_ifs <;>
      simp only [sendShineSteps, List.flatMap_cons, List.flatMap_nil, ShineStep.intensity, ih,
        mul_zero, zero_mul]

theorem displayUpdate_shine_steps (pc : PlainChar) (rc : RCol) (strip : Strip) :
    displayUpdate pc Mode.SHINE rc strip =
      [Event.cli] ++ sendShineSteps (Int.tdiv Brightness 9) strip.pin
        (shineSteps pc strip charFuel 0 0) ++ [Event.sei] := by
  have h28 : Int.tdiv Brightness 9 = 28 := by decide
  have hc : toChar pc 28 = 28 := by cases pc <;> decide
  unfold displayUpdate
  simp only [shineLoop_eq_steps, h28, hc]

/-- The iterations of the Shine loop entered at `i` with `k` positions left and
the counter at its expected value are those of the closed form. -/
theorem shineSteps_eq (pc : PlainChar) (pin : Nat) (n L : Int) (hn : n ≤ pc.max) (k : Nat) :
    ∀ (fuel i : Nat) (j : Int), (i : Int) + k = n → k < fuel →
      (2 < L → j = shineCounter L i) →
      shineSteps pc ⟨pin, n, L⟩ fuel (i : Int) j = (List.range' i k).map (shineStepSpec L) := by
  induction k with
  | zero =>
    intro fuel i j hi hf _
    obtain ⟨f, rfl⟩ : ∃ f, fuel = f + 1 := ⟨fuel - 1, by omega⟩
    have : ¬ ((i : Int) < n) := by omega
    simp [shineSteps, this]
  | succ k ih =>
    intro fuel i j hi hf hj
    obtain ⟨f, rfl⟩ : ∃ f, fuel = f + 1 := ⟨fuel - 1, by omega⟩
    have hlt : (i : Int) < n := by omega
    have hc : toChar pc ((i : Int) + 1) = ((i + 1 : Nat) : Int) := by
      rw [toChar_of_range pc _ (by omega) (by omega)]; push_cast; rfl
    rw [List.range'_succ, List.map_cons]
    by_cases h1 : (i : Int) < L
    · by_cases h2 : (i : Int) < L - 3
      · have hv : shineStepSpec L i = ShineStep.below := by
          unfold shineStepSpec; rw [if_neg (by omega), if_pos h2]
        have hrec := ih f (i + 1) j (by push_cast; omega) (by omega)
          (fun h => by rw [hj h]; unfold shineCounter; push_cast; split_ifs <;> omega)
        simp only [shineSteps, hlt, h1, h2, if_true, hc, hrec, hv]
      · by_cases h3 : 2 < L
        · have hjv : j = (i : Int) - (L - 3) := by
            rw [hj h3]; unfold shineCounter; split_ifs <;> omega
          have hj1 : toChar pc (j + 1) = (i : Int) - L + 4 := by
            rw [toChar_of_range pc _ (by omega) (by cases pc <;> simp only [PlainChar.max] <;> omega)]
            omega
          have hv : shineStepSpec L i = ShineStep.quadratic ((i : Int) - L + 4) := by
            unfold shineStepSpec; rw [if_neg (by omega), if_neg h2, if_pos h3]
          have hrec := ih f (i + 1) ((i : Int) - L + 4) (by push_cast; omega) (by omega)
            (fun _ => by unfold shineCounter; push_cast; split_ifs <;> omega)
          have h3g : L > 2 := h3
          simp only [shineSteps, hlt, h1, h2, h3g, if_true, if_false, hc, hj1, hrec, hv]
        · have hv : shineStepSpec L i = ShineStep.linear 4 (i : Int) := by
            unfold shineStepSpec; rw [if_neg (by omega), if_neg h2, if_neg h3]
          have hrec := ih f (i + 1) 4 (by push_cast; omega) (by omega)
            (fun h => absurd h h3)
          have h3g : ¬ (L > 2) := h3
          simp only [shineSteps, hlt, h1, h2, h3g, if_true, if_false, hc, hrec, hv]
    · have hv : shineStepSpec L i = ShineStep.blank := by
        unfold shineStepSpec; rw [if_pos (by omega)]
      have hrec := ih f (i + 1) j (by push_cast; omega) (by omega)
        (fun h => by rw [hj h]; unfold shineCounter; push_cast; split_ifs <;> omega)
      simp only [shineSteps, hlt, h1, if_true, if_false, hc, hrec, hv]

theorem shineSteps_closed (pc : PlainChar) (pin : Nat) (n L : Int) (hn : n ≤ pc.max) :
    shineSteps pc ⟨pin, n, L⟩ charFuel 0 0 = (List.range n.toNat).map (shineStepSpec L) := by
  by_cases h0 : 0 ≤ n
  · have := shineSteps_eq pc pin n L hn n.toNat charFuel 0 0 (by omega)
      (max_lt_charFuel pc n hn) (fun h => by unfold shineCounter; split_ifs <;> omega)
    rw [List.range_eq_range']
    exact this
  · have hz : n.toNat = 0 := by omega
    have : ¬ ((0 : Int) < n) := by omega
    simp [charFuel, shineSteps, this, hz]

/-! ## Lemmas on events, the ADC handler and the Debug variant -/

theorem isPulseEvent_sendByteLoop (x : Int) (p n : Nat) :
    ∀ e ∈ sendByteLoop x p n, isPulseEvent e = true := by
  induction n with
  | zero => intro e he; simp [sendByteLoop] at he
  | succ n ih =>
    intro e he
    simp only [sendByteLoop, List.mem_append] at he
    rcases he with he | he
    · split at he <;> simp at he <;> rcases he with h | h | h | h <;> subst h <;> rfl
    · exact ih e he

theorem isPulseEvent_sendCol (r g b : Int) (p : Nat) :
    ∀ e ∈ sendCol r g b p, isPulseEvent e = true := by
  intro e he
  simp only [sendCol, sendByte, List.mem_append] at he
  rcases he with (he | he) | he <;> exact isPulseEvent_sendByteLoop _ _ _ e he

theorem isPulseEvent_defaultLoop (pc : PlainChar) (strip : Strip) (fuel : Nat) :
    ∀ (i : Int), ∀ e ∈ defaultLoop pc strip fuel i, isPulseEvent e = true := by
  induction fuel with
  | zero => intro i e he; simp [defaultLoop] at he
  | succ f ih =>
    intro i e he
    simp only [defaultLoop] at he
    split at he
    · rw [List.mem_append] at he
      rcases he with he | he
      · split_ifs at he <;> exact isPulseEvent_sendCol _ _ _ _ e he
      · exact ih _ e he
    · simp at he

theorem isPulseEvent_rainbowLoop (pc : PlainChar) (rc : RCol) (strip : Strip) (fuel : Nat) :
    ∀ (i : Int), ∀ e ∈ rainbowLoop pc rc strip fuel i, isPulseEvent e = true := by
  induction fuel with
  | zero => intro i e he; simp [rainbowLoop] at he
  | succ f ih =>
    intro i e he
    simp only [rainbowLoop] at he
    split at he
    · rw [List.mem_append] at he
      rcases he with he | he
      · split_ifs at he <;> exact isPulseEvent_sendCol _ _ _ _ e he
      · exact ih _ e he
    · simp at he

theorem isPulseEvent_shineLoop (pc : PlainChar) (strip : Strip) (sFactor : Int) (fuel : Nat) :
    ∀ (i j : Int), ∀ e ∈ shineLoop pc strip sFactor fuel i j, isPulseEvent e = true := by
  induction fuel with
  | zero => intro i j e he; simp [shineLoop] at he
  | succ f ih =>
    intro i j e he
    simp only [shineLoop] at he
    split_ifs at he
    · rw [List.mem_append] at he
      rcases he with he | he
      · exact isPulseEvent_sendCol _ _ _ _ e he
      · exact ih _ _ e he
    · rw [List.mem_append] at he
      rcases he with he | he
      · exact isPulseEvent_sendCol _ _ _ _ e he
      · exact ih _ _ e he
    · rw [List.mem_append] at he
      rcases he with he | he
      · exact isPulseEvent_sendCol _ _ _ _ e he
      · exact ih _ _ e he
    · rw [List.mem_append] at he
      rcases he with he | he
      · exact isPulseEvent_sendCol _ _ _ _ e he
      · exact ih _ _ e he
    · simp at he

theorem adcISR_eq_foldl (pc : PlainChar) (st : State) (adch : Nat) :
    adcISR pc st adch = (adcISRWrites pc adch).foldl applyWrite st := rfl

theorem toByte_toChar (pc : PlainChar) (x : Int) : toByte (toChar pc x) = toByte x := by
  cases pc <;> simp only [toChar, toByte] <;> omega

theorem debug_sendByte_eq_of_toByte (x : Int) (b p : Nat) (hx : toByte x = b) (hp : p ≤ 7) :
    Debug.sendByte x p =
      [0, 1, 2, 3, 4, 5, 6, 7].flatMap fun k => pulseSpec p (b.testBit k) := by
  have h7 := and_two_pow_eq_iff b 7
  have h6 := and_two_pow_eq_iff b 6
  have h5 := and_two_pow_eq_iff b 5
  have h4 := and_two_pow_eq_iff b 4
  have h3 := and_two_pow_eq_iff b 3
  have h2 := and_two_pow_eq_iff b 2
  have h1 := and_two_pow_eq_iff b 1
  have h0 := and_two_pow_eq_iff b 0
  norm_num at h7 h6 h5 h4 h3 h2 h1 h0
  simp only [Debug.sendByte, Debug.sendByteLoop, bit, List.getD_cons_succ, List.getD_cons_zero,
    hx, portMask_eq p hp, pulseSpec, List.flatMap_cons, List.flatMap_nil,
    h7, h6, h5, h4, h3, h2, h1, h0]
  simp

/-! ## The sample mapping with plain `char` unsigned -/

/-- With plain `char` unsigned, for every ADC reading `s` in 0..255 one step
of the controller loop leaves `displayNum = s / (Accuracy / StripLength)` with
floor division, which is `s / 31`; the readings 0, 32, 64, 96, 128, 160, 192,
224 on the eight strips, from the start of `main`, give 0, 1, 2, 3, 4, 5, 6, 7. -/
theorem litCount_floor_unsigned (st : State) (i : Fin NumOfStrips) (s : Nat) (hs : s < 256)
    (ocie1a timsk1 : Nat) :
    ((controllerStep PlainChar.unsigned st i s).1.stripArr i).displayNum
      = (s : Int) / (Accuracy / StripLength) ∧
    (s : Int) / (Accuracy / StripLength) = ((s / 31 : Nat) : Int) ∧
    (List.finRange NumOfStrips).map (fun k =>
      ((runLoop PlainChar.unsigned (mainInit PlainChar.unsigned ocie1a timsk1) 0
        [0, 32, 64, 96, 128, 160, 192, 224]).1.stripArr k).displayNum)
      = [0, 1, 2, 3, 4, 5, 6, 7] := by
  have hd : Accuracy / StripLength = 31 := by decide
  refine ⟨?_, ?_, ?_⟩
  · rw [controllerStep_displayNum, sampleToLitCount_unsigned s hs, hd]
    omega
  · rw [hd]; omega
  · rfl

/-- The reading 200 on strip 3 gives 6 when plain `char` is unsigned. -/
theorem litCount_floor_unsigned_instance :
    ((controllerStep PlainChar.unsigned (mainInit PlainChar.unsigned 1 0) 3 200).1.stripArr
      3).displayNum = (200 : Int) / (Accuracy / StripLength) ∧
    ((200 : Nat) : Int) / (Accuracy / StripLength) = ((200 / 31 : Nat) : Int) :=
  ⟨(litCount_floor_unsigned (mainInit PlainChar.unsigned 1 0) 3 200 (by decide) 1 0).1,
    (litCount_floor_unsigned (mainInit PlainChar.unsigned 1 0) 3 200 (by decide) 1 0).2.1⟩

/-- With plain `char` unsigned, for every sequence of ADC readings in
0..255 and every number `m` of steps of the controller loop run from the start
of `main`, every strip has `0 ≤ displayNum ≤ numLEDs`. -/
theorem litCount_in_range_unsigned (ocie1a timsk1 : Nat) (readings : List Nat)
    (h : ∀ s ∈ readings, s < 256) (m : Nat) (k : Fin NumOfStrips) :
    0 ≤ ((runLoop PlainChar.unsigned (mainInit PlainChar.unsigned ocie1a timsk1) 0
      (readings.take m)).1.stripArr k).displayNum ∧
    ((runLoop PlainChar.unsigned (mainInit PlainChar.unsigned ocie1a timsk1) 0
      (readings.take m)).1.stripArr k).displayNum
      ≤ ((runLoop PlainChar.unsigned (mainInit PlainChar.unsigned ocie1a timsk1) 0
        (readings.take m)).1.stripArr k).numLEDs :=
  (runLoop_inRange (readings.take m) _ 0 (fun s hs => h s (List.mem_of_mem_take hs))
    (mainInit_inRange ocie1a timsk1) k).2

/-- The readings 255, 0, 254, 255 after three steps, strip 0, plain `char`
unsigned. -/
theorem litCount_in_range_unsigned_instance :
    0 ≤ ((runLoop PlainChar.unsigned (mainInit PlainChar.unsigned 1 0) 0
      ([255, 0, 254, 255].take 3)).1.stripArr 0).displayNum ∧
    ((runLoop PlainChar.unsigned (mainInit PlainChar.unsigned 1 0) 0
      ([255, 0, 254, 255].take 3)).1.stripArr 0).displayNum
      ≤ ((runLoop PlainChar.unsigned (mainInit PlainChar.unsigned 1 0) 0
        ([255, 0, 254, 255].take 3)).1.stripArr 0).numLEDs :=
  litCount_in_range_unsigned 1 0 [255, 0, 254, 255] (by decide) 3 0

/-! ## Claims -/

/-- C1: for every byte `b` and pin `p` in 0..7, `sendByte` emits exactly 8
pulses, one per bit of `b` from bit 7 down to bit 0, with the high/low times of
the timing table and the port at `1 << p` or 0 (whether the byte is passed as the
unsigned value `b` or as the signed value `b - 256` of the same bit pattern), so
that no line other than `p` is ever driven high. -/
theorem C1_sendByte_pulses (b p : Nat) (hb : b < 256) (hp : p ≤ 7) :
    sendByte (b : Int) p = bytePulsesSpec p b ∧
    sendByte ((b : Int) - 256) p = bytePulsesSpec p b ∧
    (sendByte (b : Int) p).length = 8 * 4 ∧
    ∀ v q, Event.port v ∈ sendByte (b : Int) p → q ≠ p → v.testBit q = false := by
  have h1 := sendByte_eq_of_toByte (b : Int) b p (toByte_natCast b hb) hp
  have h2 := sendByte_eq_of_toByte ((b : Int) - 256) b p (toByte_sub_256 b hb) hp
  refine ⟨h1, h2, ?_, ?_⟩
  · rw [h1, length_bytePulsesSpec]
  · intro v q hv hq
    rw [h1] at hv
    rcases port_mem_bytePulsesSpec p b v hv with h | h
    · rw [h, Nat.one_shiftLeft, Nat.testBit_two_pow]
      simpa using fun e => hq e.symm
    · rw [h, Nat.zero_testBit]

/-- Instance of C1: byte 0xA5 on pin 3. -/
theorem C1_sendByte_pulses_witness :
    sendByte ((0xA5 : Nat) : Int) 3 = bytePulsesSpec 3 0xA5 ∧
    sendByte (((0xA5 : Nat) : Int) - 256) 3 = bytePulsesSpec 3 0xA5 ∧
    (sendByte ((0xA5 : Nat) : Int) 3).length = 8 * 4 ∧
    ∀ v q, Event.port v ∈ sendByte ((0xA5 : Nat) : Int) 3 → q ≠ 3 → v.testBit q = false :=
  C1_sendByte_pulses 0xA5 3 (by decide) (by decide)

/-- C2: for all bytes `r`, `g`, `b` and every pin `p`, the trace of `sendCol` is
the trace of `sendByte` for `r`, then for `g`, then for `b`; it is 24 pulses of
4 events each, and on a pin in 0..7 these are the timing-table pulses of the
bits of `r`, `g`, `b`, most significant bit first. -/
theorem C2_sendCol_red_green_blue (r g b : Int) (p : Nat) :
    sendCol r g b p = sendByte r p ++ sendByte g p ++ sendByte b p ∧
    (sendCol r g b p).length = 24 * 4 ∧
    (p ≤ 7 → sendCol r g b p =
      bytePulsesSpec p (toByte r) ++ bytePulsesSpec p (toByte g)
        ++ bytePulsesSpec p (toByte b)) := by
  refine ⟨rfl, length_sendCol r g b p, fun hp => ?_⟩
  rw [sendCol, sendByte_eq_of_toByte r _ p rfl hp, sendByte_eq_of_toByte g _ p rfl hp,
    sendByte_eq_of_toByte b _ p rfl hp]

/-- Instance of C2: the colour (255, 128, 1) on pin 3. -/
theorem C2_sendCol_red_green_blue_witness :
    sendCol 255 128 1 3 =
      bytePulsesSpec 3 (toByte 255) ++ bytePulsesSpec 3 (toByte 128)
        ++ bytePulsesSpec 3 (toByte 1) :=
  (C2_sendCol_red_green_blue 255 128 1 3).2.2 (by decide)

/-- C3: in Default mode `displayUpdate` sends, between `cli` and `sei`, exactly
`n` pixels in ascending position, pixel `i` being off when `i ≥ L`, and
otherwise green when `i < n - 3`, amber when `n - 3 ≤ i < n - 1`, red when
`i = n - 1`; `n` is any value that `numLEDs` (a plain `char`) can hold and `L`
is any count, in particular `0 ≤ L ≤ n`. -/
theorem C3_default_pixels (pc : PlainChar) (rc : RCol) (pin : Nat) (n L : Int)
    (hn : n ≤ pc.max) :
    displayUpdate pc Mode.DEFAULT rc ⟨pin, n, L⟩ =
      [Event.cli] ++ sendPixels pin ((List.range n.toNat).map (defaultPixelSpec n L))
        ++ [Event.sei] ∧
    ((List.range n.toNat).map (defaultPixelSpec n L)).length = n.toNat := by
  refine ⟨?_, by simp⟩
  unfold displayUpdate
  simp only
  congr 2
  by_cases h0 : 0 ≤ n
  · have := defaultLoop_eq pc pin n L hn n.toNat charFuel 0 (by omega) (max_lt_charFuel pc n hn)
    rw [List.range_eq_range']
    exact this
  · have hz : n.toNat = 0 := by omega
    have : ¬ ((0 : Int) < n) := by omega
    simp [charFuel, defaultLoop, this, hz, sendPixels]

/-- Instance of C3: a strip of 8 LEDs on pin 2 with 8 lit, plain `char` signed. -/
theorem C3_default_pixels_witness :
    displayUpdate PlainChar.signed Mode.DEFAULT ⟨0, 0, 0⟩ ⟨2, 8, 8⟩ =
      [Event.cli] ++ sendPixels 2 ((List.range (8 : Int).toNat).map (defaultPixelSpec 8 8))
        ++ [Event.sei] ∧
    ((List.range (8 : Int).toNat).map (defaultPixelSpec 8 8)).length = (8 : Int).toNat :=
  C3_default_pixels PlainChar.signed ⟨0, 0, 0⟩ 2 8 8 (by decide)

/-- C5: in Rainbow mode `displayUpdate` sends, between `cli` and `sei`, exactly
`n` pixels, pixel `i` being the shared colour `(r, g, b)` when `i < L` and off
otherwise. -/
theorem C5_rainbow_pixels (pc : PlainChar) (rc : RCol) (pin : Nat) (n L : Int)
    (hn : n ≤ pc.max) :
    displayUpdate pc Mode.RAINBOW rc ⟨pin, n, L⟩ =
      [Event.cli] ++ sendPixels pin ((List.range n.toNat).map (rainbowPixelSpec rc L))
        ++ [Event.sei] ∧
    ((List.range n.toNat).map (rainbowPixelSpec rc L)).length = n.toNat := by
  refine ⟨?_, by simp⟩
  unfold displayUpdate
  simp only
  congr 2
  by_cases h0 : 0 ≤ n
  · have := rainbowLoop_eq pc rc pin n L hn n.toNat charFuel 0 (by omega)
      (max_lt_charFuel pc n hn)
    rw [List.range_eq_range']
    exact this
  · have hz : n.toNat = 0 := by omega
    have : ¬ ((0 : Int) < n) := by omega
    simp [charFuel, rainbowLoop, this, hz, sendPixels]

/-- Instance of C5: a strip of 8 LEDs on pin 5 with 3 lit, colour (10, 255, 0). -/
theorem C5_rainbow_pixels_witness :
    displayUpdate PlainChar.unsigned Mode.RAINBOW ⟨10, 255, 0⟩ ⟨5, 8, 3⟩ =
      [Event.cli] ++ sendPixels 5 ((List.range (8 : Int).toNat).map
        (rainbowPixelSpec ⟨10, 255, 0⟩ 3)) ++ [Event.sei] ∧
    ((List.range (8 : Int).toNat).map (rainbowPixelSpec ⟨10, 255, 0⟩ 3)).length
      = (8 : Int).toNat :=
  C5_rainbow_pixels PlainChar.unsigned ⟨10, 255, 0⟩ 5 8 3 (by decide)

/-- C4: in Shine mode, for every `L` (in particular `0 ≤ L ≤ n`), `displayUpdate`
sends, between `cli` and `sei`, exactly `n` pixels, each with the same byte on
red, green and blue; the byte is 0 at every position `i < L - 3` and every
position `i ≥ L`, and over the lit positions `i < L` the bytes sent are
non-decreasing in `i`. -/
theorem C4_shine_pixels (pc : PlainChar) (rc : RCol) (pin : Nat) (n L : Int)
    (hn : n ≤ pc.max) :
    displayUpdate pc Mode.SHINE rc ⟨pin, n, L⟩ =
      [Event.cli] ++ sendPixels pin ((List.range n.toNat).map
        (fun i => (toByte (shineIntensity L i), toByte (shineIntensity L i),
          toByte (shineIntensity L i)))) ++ [Event.sei] ∧
    (∀ i : Nat, (i : Int) < n → ((i : Int) < L - 3 ∨ L ≤ (i : Int)) →
      toByte (shineIntensity L i) = 0) ∧
    (∀ i k : Nat, i ≤ k → (k : Int) < L →
      toByte (shineIntensity L i) ≤ toByte (shineIntensity L k)) := by
  refine ⟨?_, ?_, ?_⟩
  · unfold displayUpdate
    simp only [sFactor_eq]
    congr 2
    by_cases h0 : 0 ≤ n
    · have := shineLoop_eq pc pin n L hn n.toNat charFuel 0 0 (by omega)
        (max_lt_charFuel pc n hn) (fun h => by unfold shineCounter; split_ifs <;> omega)
      rw [List.range_eq_range']
      exact this
    · have hz : n.toNat = 0 := by omega
      have : ¬ ((0 : Int) < n) := by omega
      simp [charFuel, shineLoop, this, hz, sendPixels]
  · intro i _ h
    have hv : shineIntensity L i = 0 := by
      unfold shineIntensity
      rcases h with h | h
      · by_cases h1 : L ≤ (i : Int)
        · rw [if_pos h1]
        · rw [if_neg h1, if_pos h]
      · rw [if_pos h]
    rw [hv]; rfl
  · intro i k hik hk
    have hi : (i : Int) < L := by omega
    have hik2 : (i : Int) ≤ (k : Int) := by omega
    rcases shineIntensity_table L i hi with ⟨_, e⟩ | ⟨_, a, e⟩ | ⟨_, a, e⟩ | ⟨_, a, e⟩ |
        ⟨_, a, e⟩ | ⟨_, a, e⟩ <;>
      rcases shineIntensity_table L k hk with ⟨_, e2⟩ | ⟨_, a2, e2⟩ | ⟨_, a2, e2⟩ |
        ⟨_, a2, e2⟩ | ⟨_, a2, e2⟩ | ⟨_, a2, e2⟩ <;>
      first
        | (rw [e, e2] <;> decide)
        | omega

/-- Instance of C4: a strip of 8 LEDs on pin 1 with 5 lit, plain `char` signed. -/
theorem C4_shine_pixels_witness :
    displayUpdate PlainChar.signed Mode.SHINE ⟨0, 0, 0⟩ ⟨1, 8, 5⟩ =
      [Event.cli] ++ sendPixels 1 ((List.range (8 : Int).toNat).map
        (fun i => (toByte (shineIntensity 5 i), toByte (shineIntensity 5 i),
          toByte (shineIntensity 5 i)))) ++ [Event.sei] ∧
    (∀ i : Nat, (i : Int) < 8 → ((i : Int) < 5 - 3 ∨ 5 ≤ (i : Int)) →
      toByte (shineIntensity 5 i) = 0) ∧
    (∀ i k : Nat, i ≤ k → (k : Int) < 5 →
      toByte (shineIntensity 5 i) ≤ toByte (shineIntensity 5 k)) :=
  C4_shine_pixels PlainChar.signed ⟨0, 0, 0⟩ 1 8 5 (by decide)

/-- C6 fails on the code when plain `char` is signed: the reading 128 on strip 4
is stored in `vSize` as -128 and leaves `displayNum = -4`, where the claim says
128 / 31 = 4; the readings 0, 32, 64, 96, 128, 160, 192, 224 on the eight strips
give 0, 1, 2, 3, -4, -3, -2, -1. -/
theorem C6_signed_reading_wraps :
    (adcISR PlainChar.signed (mainInit PlainChar.signed 1 0) 128).vSize = -128 ∧
    ((controllerStep PlainChar.signed (mainInit PlainChar.signed 1 0) 4 128).1.stripArr
      4).displayNum = -4 ∧
    ((128 : Nat) : Int) / (Accuracy / StripLength) = 4 ∧
    (List.finRange NumOfStrips).map (fun k =>
      ((runLoop PlainChar.signed (mainInit PlainChar.signed 1 0) 0
        [0, 32, 64, 96, 128, 160, 192, 224]).1.stripArr k).displayNum)
      = [0, 1, 2, 3, -4, -3, -2, -1] := by
  decide

/-- C7 fails on the code when plain `char` is signed: after the single reading
200 from the start of `main`, strip 0 has `displayNum = -1`, below 0. -/
theorem C7_signed_litCount_negative :
    ((runLoop PlainChar.signed (mainInit PlainChar.signed 1 0) 0 [200]).1.stripArr
      0).displayNum = -1 ∧
    ¬ (0 ≤ ((runLoop PlainChar.signed (mainInit PlainChar.signed 1 0) 0 [200]).1.stripArr
      0).displayNum) := by
  decide

/-- C8, as stated, fails: the sample 254 is not sent to 7, whichever way plain
`char` is read. -/
theorem C8_sample_254_not_7 :
    ¬ (sampleToLitCount PlainChar.unsigned 0 = 0 ∧ sampleToLitCount PlainChar.unsigned 254 = 7) ∧
    ¬ (sampleToLitCount PlainChar.signed 0 = 0 ∧ sampleToLitCount PlainChar.signed 254 = 7) := by
  decide

/-- C8, amended: with Accuracy = 255, StripLength = 8 and plain `char` unsigned
the mapping sends sample 0 to 0 and sample 254 to 8 = 254 / 31, the full strip,
and one step of the controller loop stores these values in `displayNum`. -/
theorem C8_sample_ends (st : State) (i : Fin NumOfStrips) :
    Accuracy = 255 ∧ StripLength = 8 ∧
    sampleToLitCount PlainChar.unsigned 0 = 0 ∧
    sampleToLitCount PlainChar.unsigned 254 = 8 ∧
    ((controllerStep PlainChar.unsigned st i 0).1.stripArr i).displayNum = 0 ∧
    ((controllerStep PlainChar.unsigned st i 254).1.stripArr i).displayNum = 8 := by
  refine ⟨rfl, rfl, by decide, by decide, ?_, ?_⟩
  · rw [controllerStep_displayNum]; decide
  · rw [controllerStep_displayNum]; decide

/-- C9: the loop body for strip `i` with new count `c = numLEDOf vSize` calls
`displayUpdate` (on the strip with `displayNum = c`, after the strobe) exactly
when `c` differs from the stored `displayNum` or the mode is Rainbow; otherwise
its trace is the strobe alone; in both cases `displayNum` of the strip is `c`
afterwards. -/
theorem C9_redraw_iff (pc : PlainChar) (st : State) (i : Fin NumOfStrips) :
    (redrawNeeded st i → (loopBody pc st i).2 = strobeEqualiser ++
      displayUpdate pc st.cMode st.rCol { st.stripArr i with displayNum := numLEDOf st.vSize }) ∧
    (¬ redrawNeeded st i → (loopBody pc st i).2 = strobeEqualiser) ∧
    (Event.cli ∈ (loopBody pc st i).2 ↔ redrawNeeded st i) ∧
    (st.cMode = Mode.RAINBOW → Event.cli ∈ (loopBody pc st i).2) ∧
    ((loopBody pc st i).1.stripArr i).displayNum = numLEDOf st.vSize := by
  have hyes : redrawNeeded st i → (loopBody pc st i).2 = strobeEqualiser ++
      displayUpdate pc st.cMode st.rCol
        { st.stripArr i with displayNum := numLEDOf st.vSize } := by
    intro h
    unfold redrawNeeded at h
    simp only [loopBody, h, if_true]
  have hno : ¬ redrawNeeded st i → (loopBody pc st i).2 = strobeEqualiser := by
    intro h
    unfold redrawNeeded at h
    simp only [loopBody, h, if_false]
  have hiff : Event.cli ∈ (loopBody pc st i).2 ↔ redrawNeeded st i := by
    constructor
    · intro hc
      by_contra hn
      rw [hno hn] at hc
      exact cli_not_mem_strobeEqualiser hc
    · intro hr
      rw [hyes hr]
      simp [displayUpdate]
  exact ⟨hyes, hno, hiff, fun hm => hiff.2 (Or.inr hm), loopBody_displayNum pc st i⟩

/-- Instance of C9: at the start of `main` (Rainbow mode, count unchanged) strip
2 is redrawn; in the same state switched to Default mode it is not. -/
theorem C9_redraw_iff_witness :
    (loopBody PlainChar.unsigned (mainInit PlainChar.unsigned 1 0) 2).2 = strobeEqualiser ++
      displayUpdate PlainChar.unsigned (mainInit PlainChar.unsigned 1 0).cMode
        (mainInit PlainChar.unsigned 1 0).rCol
        { (mainInit PlainChar.unsigned 1 0).stripArr 2 with
          displayNum := numLEDOf (mainInit PlainChar.unsigned 1 0).vSize } ∧
    (loopBody PlainChar.unsigned (setMode 1 (mainInit PlainChar.unsigned 1 0) Mode.DEFAULT) 2).2
      = strobeEqualiser :=
  ⟨(C9_redraw_iff PlainChar.unsigned (mainInit PlainChar.unsigned 1 0) 2).1 (by decide),
    (C9_redraw_iff PlainChar.unsigned
      (setMode 1 (mainInit PlainChar.unsigned 1 0) Mode.DEFAULT) 2).2.1 (by decide)⟩

/-- C10: for every mode `m` and prior state, after `setMode(m)` the current mode
is `m`, bit `OCIE1A` of `TIMSK1` is set exactly when `m` is Rainbow, and every
other bit of the 8-bit register is unchanged. -/
theorem C10_setMode_timer (ocie1a : Nat) (hk : ocie1a < 8) (st : State) (m : Mode) :
    (setMode ocie1a st m).cMode = m ∧
    ((setMode ocie1a st m).TIMSK1.testBit ocie1a = true ↔ m = Mode.RAINBOW) ∧
    (∀ b, b < 8 → b ≠ ocie1a →
      (setMode ocie1a st m).TIMSK1.testBit b = st.TIMSK1.testBit b) ∧
    (setMode ocie1a st m).TIMSK1 < 256 := by
  cases m
  · refine ⟨rfl, ?_, ?_, ?_⟩
    · simp only [setMode, testBit_clearBit_byte _ _ _ hk]; simp
    · intro b hb hne
      simp only [setMode, testBit_clearBit_byte _ _ _ hb]
      simp [Ne.symm hne]
    · simp only [setMode]; omega
  · refine ⟨rfl, ?_, ?_, ?_⟩
    · simp only [setMode, testBit_setBit_byte _ _ _ hk]; simp
    · intro b hb hne
      simp only [setMode, testBit_setBit_byte _ _ _ hb]
      simp [Ne.symm hne]
    · simp only [setMode]; omega
  · refine ⟨rfl, ?_, ?_, ?_⟩
    · simp only [setMode, testBit_clearBit_byte _ _ _ hk]; simp
    · intro b hb hne
      simp only [setMode, testBit_clearBit_byte _ _ _ hb]
      simp [Ne.symm hne]
    · simp only [setMode]; omega

/-- Instance of C10: `OCIE1A` = 1, from the start of `main` into Shine mode. -/
theorem C10_setMode_timer_witness :
    (setMode 1 (mainInit PlainChar.unsigned 1 0) Mode.SHINE).cMode = Mode.SHINE ∧
    ((setMode 1 (mainInit PlainChar.unsigned 1 0) Mode.SHINE).TIMSK1.testBit 1 = true ↔
      Mode.SHINE = Mode.RAINBOW) ∧
    (∀ b, b < 8 → b ≠ 1 →
      (setMode 1 (mainInit PlainChar.unsigned 1 0) Mode.SHINE).TIMSK1.testBit b
        = (mainInit PlainChar.unsigned 1 0).TIMSK1.testBit b) ∧
    (setMode 1 (mainInit PlainChar.unsigned 1 0) Mode.SHINE).TIMSK1 < 256 :=
  C10_setMode_timer 1 (by decide) (mainInit PlainChar.unsigned 1 0) Mode.SHINE

/-- C11, as stated, fails: `setMode(RAINBOW)` entered with the colour at pure red
(255, 0, 0) leaves (255, 255, 0), not the seed (0, 255, 0). -/
theorem C11_prior_colour_kept :
    (setMode 1 { mainInit PlainChar.unsigned 1 0 with rCol := { c0 := 255, c1 := 0, c2 := 0 } }
      Mode.RAINBOW).rCol = { c0 := 255, c1 := 255, c2 := 0 } ∧
    (setMode 1 { mainInit PlainChar.unsigned 1 0 with rCol := { c0 := 255, c1 := 0, c2 := 0 } }
      Mode.RAINBOW).rCol ≠ rainbowSeed := by
  decide

/-- C11, amended: `setMode(RAINBOW)` sets the green entry `rCol[1]` to
Brightness and keeps the red and blue entries; the colour is the seed
(0, Brightness, 0) when red and blue were 0 before, as they are at the single
call in `main`. -/
theorem C11_setMode_rainbow_green (ocie1a : Nat) (st : State) :
    (setMode ocie1a st Mode.RAINBOW).rCol = { st.rCol with c1 := Brightness.toNat } ∧
    (st.rCol.c0 = 0 → st.rCol.c2 = 0 → (setMode ocie1a st Mode.RAINBOW).rCol = rainbowSeed) ∧
    (∀ (pc : PlainChar) (timsk1 : Nat), (mainInit pc ocie1a timsk1).rCol = rainbowSeed) := by
  refine ⟨rfl, ?_, fun _ _ => rfl⟩
  intro h0 h2
  simp only [setMode, rainbowSeed, h0, h2]

/-- Instance of C11 amended: from the colour (0, 17, 0), with `OCIE1A` = 1. -/
theorem C11_setMode_rainbow_green_witness :
    (setMode 1 { mainInit PlainChar.unsigned 1 0 with rCol := { c0 := 0, c1 := 17, c2 := 0 } }
      Mode.RAINBOW).rCol = rainbowSeed :=
  (C11_setMode_rainbow_green 1
    { mainInit PlainChar.unsigned 1 0 with rCol := { c0 := 0, c1 := 17, c2 := 0 } }).2.1 rfl rfl

/-- C12: after any number `n` of timer ticks from the seed every channel is at
most Brightness, and in the next tick each of the three stages of the handler
leaves every channel unchanged, one higher or one lower in true arithmetic: no
increment is applied at 255 and no decrement at 0. -/
theorem C12_channels_bounded (n : Nat) :
    ((timerISR^[n] rainbowSeed).c0 : Int) ≤ Brightness ∧
    ((timerISR^[n] rainbowSeed).c1 : Int) ≤ Brightness ∧
    ((timerISR^[n] rainbowSeed).c2 : Int) ≤ Brightness ∧
    NoWrap (timerISR^[n] rainbowSeed) (timerStage1 (timerISR^[n] rainbowSeed)) ∧
    NoWrap (timerStage1 (timerISR^[n] rainbowSeed))
      (timerStage2 (timerStage1 (timerISR^[n] rainbowSeed))) ∧
    NoWrap (timerStage2 (timerStage1 (timerISR^[n] rainbowSeed)))
      (timerISR (timerISR^[n] rainbowSeed)) := by
  rw [iterate_timerISR_seed]
  have hm : n % 1528 < 1528 := Nat.mod_lt _ (by decide)
  have hb := wheelState_bounds _ hm
  have hw := wheelState_noWrap _ hm
  refine ⟨?_, ?_, ?_, hw.1, hw.2.1, hw.2.2⟩ <;> simp only [Brightness] <;> omega

/-- C13: the ticks from the seed are periodic with period 1528: the colour is
the seed again after 1528 ticks and not before, it is pure blue (0, 0, 255)
after 509 ticks and pure red (255, 0, 0) after 1019 ticks, so green hands over
to blue, blue to red and red to green; the seed is the colour that `main` sets
up. -/
theorem C13_wheel_periodic :
    0 < wheelPeriod ∧
    timerISR^[wheelPeriod] rainbowSeed = rainbowSeed ∧
    (∀ n, timerISR^[n + wheelPeriod] rainbowSeed = timerISR^[n] rainbowSeed) ∧
    (∀ m, 0 < m → m < wheelPeriod → timerISR^[m] rainbowSeed ≠ rainbowSeed) ∧
    timerISR^[509] rainbowSeed = { c0 := 0, c1 := 0, c2 := Brightness.toNat } ∧
    timerISR^[1019] rainbowSeed = { c0 := Brightness.toNat, c1 := 0, c2 := 0 } ∧
    509 < 1019 ∧ 1019 < wheelPeriod ∧
    (∀ (pc : PlainChar) (ocie1a timsk1 : Nat), (mainInit pc ocie1a timsk1).rCol = rainbowSeed) := by
  refine ⟨by decide, ?_, ?_, ?_, ?_, ?_, by decide, by decide, fun _ _ _ => rfl⟩
  · rw [iterate_timerISR_seed]; decide
  · intro n
    have hn : (n + wheelPeriod) % 1528 = n % 1528 := by
      simp only [wheelPeriod]
      omega
    rw [iterate_timerISR_seed, iterate_timerISR_seed, hn]
  · intro m h0 h1
    rw [iterate_timerISR_seed]
    simp only [wheelPeriod] at h1
    have hm : m % 1528 = m := Nat.mod_eq_of_lt h1
    rw [hm]
    exact wheelState_ne_seed m h0 h1
  · rw [iterate_timerISR_seed]; decide
  · rw [iterate_timerISR_seed]; decide

/-- Instance of C13: one tick after the seed the colour is not the seed. -/
theorem C13_wheel_periodic_witness : timerISR^[1] rainbowSeed ≠ rainbowSeed :=
  C13_wheel_periodic.2.2.2.1 1 (by decide) (by decide)

/-- C14: for every strip and mode the trace of `displayUpdate` is `cli`, then
events that are all port writes and delays (so neither `sei` nor `cli`), then
`sei`. -/
theorem C14_interrupts_masked (pc : PlainChar) (m : Mode) (rc : RCol) (strip : Strip) :
    ∃ mid : List Event,
      displayUpdate pc m rc strip = [Event.cli] ++ mid ++ [Event.sei] ∧
      (∀ e ∈ mid, isPulseEvent e = true) ∧ Event.sei ∉ mid ∧ Event.cli ∉ mid ∧
      (displayUpdate pc m rc strip).head? = some Event.cli ∧
      (displayUpdate pc m rc strip).getLast? = some Event.sei := by
  have key : ∀ mid : List Event, (∀ e ∈ mid, isPulseEvent e = true) →
      (∀ e ∈ mid, isPulseEvent e = true) ∧ Event.sei ∉ mid ∧ Event.cli ∉ mid ∧
      ([Event.cli] ++ mid ++ [Event.sei]).head? = some Event.cli ∧
      ([Event.cli] ++ mid ++ [Event.sei]).getLast? = some Event.sei := by
    intro mid h
    refine ⟨h, fun hc => ?_, fun hc => ?_, by simp, List.getLast?_concat _⟩
    · exact absurd (h _ hc) (by decide)
    · exact absurd (h _ hc) (by decide)
  cases m
  · exact ⟨defaultLoop pc strip charFuel 0, rfl, key _ (isPulseEvent_defaultLoop pc strip _ _)⟩
  · exact ⟨rainbowLoop pc rc strip charFuel 0, rfl,
      key _ (isPulseEvent_rainbowLoop pc rc strip _ _)⟩
  · exact ⟨shineLoop pc strip (toChar pc (Int.tdiv Brightness 9)) charFuel 0 0, rfl,
      key _ (isPulseEvent_shineLoop pc strip _ _ _ _)⟩

set_option maxRecDepth 20000 in
/-- C15, as stated, fails in Shine mode: a strip of 8 LEDs with `displayNum` 9
is not sent the pixels of the same strip with `displayNum` 8. -/
theorem C15_shine_excess_differs :
    displayUpdate PlainChar.unsigned Mode.SHINE ⟨0, 0, 0⟩ ⟨0, 8, 9⟩ ≠
      displayUpdate PlainChar.unsigned Mode.SHINE ⟨0, 0, 0⟩ ⟨0, 8, 8⟩ := by
  decide

/-- C15, amended: for a strip with `L > n`, `displayUpdate` sends exactly `n`
pixels in every mode; in Default and Rainbow mode they are the pixels sent for
`L = n`; in Shine mode pixel `i` is the Shine pixel for the edge at `L`: off
for `i < L - 3`, grey 28, 112, 252 at `i = L - 3, L - 2, L - 1` when `L ≥ 3`,
and grey 112 when `L ≤ 2`. -/
theorem C15_excess_litCount (pc : PlainChar) (rc : RCol) (pin : Nat) (n L : Int)
    (hn : n ≤ pc.max) (hL : n < L) :
    displayUpdate pc Mode.DEFAULT rc ⟨pin, n, L⟩ = displayUpdate pc Mode.DEFAULT rc ⟨pin, n, n⟩ ∧
    displayUpdate pc Mode.RAINBOW rc ⟨pin, n, L⟩ = displayUpdate pc Mode.RAINBOW rc ⟨pin, n, n⟩ ∧
    displayUpdate pc Mode.SHINE rc ⟨pin, n, L⟩ =
      [Event.cli] ++ sendPixels pin ((List.range n.toNat).map (shinePixelSpec L))
        ++ [Event.sei] ∧
    (∀ m : Mode, ∃ ps : List Pixel, ps.length = n.toNat ∧
      displayUpdate pc m rc ⟨pin, n, L⟩ = [Event.cli] ++ sendPixels pin ps ++ [Event.sei]) ∧
    (∀ i : Nat, (i : Int) < n →
      ((i : Int) < L - 3 → shinePixelSpec L i = (0, 0, 0)) ∧
      (2 < L → (i : Int) = L - 3 → shinePixelSpec L i = (28, 28, 28)) ∧
      (2 < L → (i : Int) = L - 2 → shinePixelSpec L i = (112, 112, 112)) ∧
      (2 < L → (i : Int) = L - 1 → shinePixelSpec L i = (252, 252, 252)) ∧
      (L ≤ 2 → shinePixelSpec L i = (112, 112, 112))) := by
  refine ⟨?_, ?_, displayUpdate_shine pc rc pin n L hn, ?_, ?_⟩
  · rw [displayUpdate_default pc rc pin n L hn, displayUpdate_default pc rc pin n n hn]
    congr 3
    apply List.map_congr_left
    intro i hi
    rw [List.mem_range] at hi
    unfold defaultPixelSpec
    rw [if_neg (show ¬ L ≤ (i : Int) by omega), if_neg (show ¬ n ≤ (i : Int) by omega)]
  · rw [displayUpdate_rainbow pc rc pin n L hn, displayUpdate_rainbow pc rc pin n n hn]
    congr 3
    apply List.map_congr_left
    intro i hi
    rw [List.mem_range] at hi
    unfold rainbowPixelSpec
    rw [if_pos (show (i : Int) < L by omega), if_pos (show (i : Int) < n by omega)]
  · intro m
    cases m
    · exact ⟨_, by simp, displayUpdate_default pc rc pin n L hn⟩
    · exact ⟨_, by simp, displayUpdate_rainbow pc rc pin n L hn⟩
    · exact ⟨_, by simp, displayUpdate_shine pc rc pin n L hn⟩
  · intro i hi
    have hiL : (i : Int) < L := by omega
    unfold shinePixelSpec
    rcases shineIntensity_table L i hiL with ⟨a, e⟩ | ⟨a0, a, e⟩ | ⟨a0, a, e⟩ | ⟨a0, a, e⟩ |
        ⟨a0, a, e⟩ | ⟨a0, a, e⟩ <;>
      rw [e] <;>
      refine ⟨fun _ => ?_, fun _ _ => ?_, fun _ _ => ?_, fun _ _ => ?_, fun _ => ?_⟩ <;>
      first
        | decide
        | omega

/-- Instance of C15 amended: 8 LEDs with `displayNum` 9: Default mode sends the
pixels of `displayNum` 8, and in Shine mode pixel 7 is grey 112. -/
theorem C15_excess_litCount_witness :
    displayUpdate PlainChar.unsigned Mode.DEFAULT ⟨0, 0, 0⟩ ⟨0, 8, 9⟩ =
      displayUpdate PlainChar.unsigned Mode.DEFAULT ⟨0, 0, 0⟩ ⟨0, 8, 8⟩ ∧
    shinePixelSpec 9 7 = (112, 112, 112) :=
  ⟨(C15_excess_litCount PlainChar.unsigned ⟨0, 0, 0⟩ 0 8 9 (by decide) (by decide)).1,
    ((C15_excess_litCount PlainChar.unsigned ⟨0, 0, 0⟩ 0 8 9 (by decide)
      (by decide)).2.2.2.2 7 (by decide)).2.2.1 (by decide) (by decide)⟩

/-- C16, as stated, fails: with 3 of 8 LEDs lit the edge pixel `i = 2` is sent
by the quadratic branch with the counter at 3, intensity 252, and not by the
linear formula, which would give 28 * 4 * 3 = 336. -/
theorem C16_edge_pixel_quadratic :
    shineSteps PlainChar.unsigned ⟨0, 8, 3⟩ charFuel 0 0 =
      [ShineStep.quadratic 1, ShineStep.quadratic 2, ShineStep.quadratic 3, ShineStep.blank,
        ShineStep.blank, ShineStep.blank, ShineStep.blank, ShineStep.blank] ∧
    (ShineStep.quadratic 3).intensity (Int.tdiv Brightness 9) = 252 ∧
    (ShineStep.linear 4 2).intensity (Int.tdiv Brightness 9) = 336 := by
  decide

/-- C16, amended: in Shine mode with `1 ≤ L` (in particular `1 ≤ L ≤ n`) the
iterations are those of the closed form: for `L ≥ 3` the lit pixels below `L - 3` send 0 and the last three,
the edge pixel included, take the quadratic intensity `scale * j * j` with
`j = 1, 2, 3`; for `L ≤ 2` every lit pixel takes the linear intensity
`scale * 4 * (i + 1)`; `scale` is Brightness / 9 = 28. -/
theorem C16_shine_branches (pc : PlainChar) (rc : RCol) (pin : Nat) (n L : Int)
    (hn : n ≤ pc.max) (h1 : 1 ≤ L) :
    displayUpdate pc Mode.SHINE rc ⟨pin, n, L⟩ =
      [Event.cli] ++ sendShineSteps (Int.tdiv Brightness 9) pin
        ((List.range n.toNat).map (shineStepSpec L)) ++ [Event.sei] ∧
    Int.tdiv Brightness 9 = 28 ∧
    (2 < L → ∀ i : Nat, (i : Int) < L →
      shineStepSpec L i =
        if (i : Int) < L - 3 then ShineStep.below
        else ShineStep.quadratic ((i : Int) - (L - 3) + 1)) ∧
    (2 < L → shineStepSpec L (L - 1).toNat = ShineStep.quadratic 3) ∧
    (L ≤ 2 → ∀ i : Nat, (i : Int) < L → shineStepSpec L i = ShineStep.linear 4 (i : Int)) := by
  refine ⟨?_, by decide, ?_, ?_, ?_⟩
  · rw [displayUpdate_shine_steps, shineSteps_closed pc pin n L hn]
  · intro h2 i hi
    unfold shineStepSpec
    rw [if_neg (by omega)]
    split_ifs
    · rfl
    · congr 1; omega
  · intro h2
    unfold shineStepSpec
    rw [if_neg (by omega), if_neg (by omega), if_pos h2]
    congr 1; omega
  · intro h2 i hi
    unfold shineStepSpec
    rw [if_neg (by omega), if_neg (by omega), if_neg (by omega)]

/-- Instance of C16 amended: 8 LEDs, 5 lit, plain `char` signed. -/
theorem C16_shine_branches_witness :
    displayUpdate PlainChar.signed Mode.SHINE ⟨0, 0, 0⟩ ⟨1, 8, 5⟩ =
      [Event.cli] ++ sendShineSteps (Int.tdiv Brightness 9) 1
        ((List.range (8 : Int).toNat).map (shineStepSpec 5)) ++ [Event.sei] ∧
    shineStepSpec 5 ((5 : Int) - 1).toNat = ShineStep.quadratic 3 :=
  ⟨(C16_shine_branches PlainChar.signed ⟨0, 0, 0⟩ 1 8 5 (by decide) (by decide)).1,
    (C16_shine_branches PlainChar.signed ⟨0, 0, 0⟩ 1 8 5 (by decide) (by decide)).2.2.2.1
      (by decide)⟩

/-- C17, as stated, fails: the last write of the ADC handler is the store of the
reading into `vSize`; the write of the ready flag is its first write. -/
theorem C17_flag_written_first :
    (adcISRWrites PlainChar.unsigned 200).getLast? ≠ some (Write.ADCflag 1) ∧
    (adcISRWrites PlainChar.unsigned 200).head? = some (Write.ADCflag 1) ∧
    (adcISRWrites PlainChar.unsigned 200).getLast? = some (Write.vSize 200) := by
  decide

/-- C17, amended: the ADC handler performs two writes, first `ADCflag = 1` and
then `vSize = ADCH`; afterwards the flag is 1, `vSize` holds the byte of the
reading, and the strips, the mode, the rainbow colour and `TIMSK1` are
unchanged. -/
theorem C17_adc_handler (pc : PlainChar) (st : State) (adch : Nat) :
    adcISRWrites pc adch = [Write.ADCflag 1, Write.vSize (toChar pc (adch : Int))] ∧
    adcISR pc st adch = (adcISRWrites pc adch).foldl applyWrite st ∧
    (adcISR pc st adch).ADCflag = 1 ∧
    (adcISR pc st adch).vSize = toChar pc (adch : Int) ∧
    toByte (adcISR pc st adch).vSize = adch % 256 ∧
    (adcISR pc st adch).stripArr = st.stripArr ∧
    (adcISR pc st adch).cMode = st.cMode ∧
    (adcISR pc st adch).rCol = st.rCol ∧
    (adcISR pc st adch).TIMSK1 = st.TIMSK1 := by
  refine ⟨rfl, rfl, rfl, rfl, ?_, rfl, rfl, rfl, rfl⟩
  show toByte (toChar pc (adch : Int)) = adch % 256
  rw [toByte_toChar]
  unfold toByte
  omega

/-- C18: for every byte `b` and pin `p` in 0..7, the main `sendByte` sends the
eight timing-table pulses of `b` with bit 7 first, and the Debug `sendByte`
sends the same eight pulses in reverse order, bit 0 first. -/
theorem C18_debug_reverses (b p : Nat) (hb : b < 256) (hp : p ≤ 7) :
    sendByte (b : Int) p = (mainPulses p b).flatMap id ∧
    Debug.sendByte (b : Int) p = (mainPulses p b).reverse.flatMap id ∧
    (mainPulses p b).length = 8 ∧
    (∀ q ∈ mainPulses p b, q = pulseSpec p true ∨ q = pulseSpec p false) := by
  refine ⟨?_, ?_, rfl, ?_⟩
  · rw [sendByte_eq_of_toByte (b : Int) b p (toByte_natCast b hb) hp]
    rfl
  · rw [debug_sendByte_eq_of_toByte (b : Int) b p (toByte_natCast b hb) hp]
    rfl
  · intro q hq
    simp only [mainPulses, List.mem_map] at hq
    obtain ⟨k, _, rfl⟩ := hq
    cases b.testBit k
    · right; rfl
    · left; rfl

/-- Instance of C18: byte 0xA5 on pin 3. -/
theorem C18_debug_reverses_witness :
    sendByte ((0xA5 : Nat) : Int) 3 = (mainPulses 3 0xA5).flatMap id ∧
    Debug.sendByte ((0xA5 : Nat) : Int) 3 = (mainPulses 3 0xA5).reverse.flatMap id :=
  ⟨(C18_debug_reverses 0xA5 3 (by decide) (by decide)).1,
    (C18_debug_reverses 0xA5 3 (by decide) (by decide)).2.1⟩

/-- C19: in Shine mode, for every strip whose `numLEDs` fits a plain `char` (in
particular `n ≤ 127`) and every `L`, the quadratic branch runs with the counter
`j` between 1 and 3, and every intensity passed to `sendCol` is one of 0, 28,
112, 224, 252, at most Brightness, and equal to its own low byte. -/
theorem C19_shine_no_truncation (pc : PlainChar) (rc : RCol) (pin : Nat) (n L : Int)
    (hn : n ≤ pc.max) :
    displayUpdate pc Mode.SHINE rc ⟨pin, n, L⟩ =
      [Event.cli] ++ sendShineSteps (Int.tdiv Brightness 9) pin
        (shineSteps pc ⟨pin, n, L⟩ charFuel 0 0) ++ [Event.sei] ∧
    ∀ s ∈ shineSteps pc ⟨pin, n, L⟩ charFuel 0 0,
      (∀ j, s = ShineStep.quadratic j → 1 ≤ j ∧ j ≤ 3) ∧
      s.intensity (Int.tdiv Brightness 9) ∈ ([0, 28, 112, 224, 252] : List Int) ∧
      s.intensity (Int.tdiv Brightness 9) ≤ Brightness ∧
      ((toByte (s.intensity (Int.tdiv Brightness 9)) : Nat) : Int)
        = s.intensity (Int.tdiv Brightness 9) := by
  refine ⟨displayUpdate_shine_steps pc rc ⟨pin, n, L⟩, ?_⟩
  have h28 : Int.tdiv Brightness 9 = 28 := by decide
  rw [shineSteps_closed pc pin n L hn, h28]
  intro s hs
  rw [List.mem_map] at hs
  obtain ⟨i, _, rfl⟩ := hs
  unfold shineStepSpec
  split_ifs with a1 a2 a3
  · exact ⟨fun j h => (by cases h), (by decide), (by decide), (by decide)⟩
  · exact ⟨fun j h => (by cases h), (by decide), (by decide), (by decide)⟩
  · have hj : (i : Int) - L + 4 = 1 ∨ (i : Int) - L + 4 = 2 ∨ (i : Int) - L + 4 = 3 := by omega
    rcases hj with h | h | h <;> rw [h] <;>
      exact ⟨fun j hq => (by cases hq; omega), (by decide), (by decide), (by decide)⟩
  · have hi : i = 0 ∨ i = 1 := by omega
    rcases hi with h | h <;> subst h <;>
      exact ⟨fun j hq => (by cases hq), (by decide), (by decide), (by decide)⟩

/-- Instance of C19: 8 LEDs, 5 lit, plain `char` signed. -/
theorem C19_shine_no_truncation_witness :
    displayUpdate PlainChar.signed Mode.SHINE ⟨0, 0, 0⟩ ⟨1, 8, 5⟩ =
      [Event.cli] ++ sendShineSteps (Int.tdiv Brightness 9) 1
        (shineSteps PlainChar.signed ⟨1, 8, 5⟩ charFuel 0 0) ++ [Event.sei] ∧
    (ShineStep.quadratic 3).intensity (Int.tdiv Brightness 9) ≤ Brightness :=
  ⟨(C19_shine_no_truncation PlainChar.signed ⟨0, 0, 0⟩ 1 8 5 (by decide)).1,
    ((C19_shine_no_truncation PlainChar.signed ⟨0, 0, 0⟩ 1 8 5 (by decide)).2
      (ShineStep.quadratic 3) (by decide)).2.2.1⟩

/-- C20: after any number of timer ticks from the seed at least one channel is
at Brightness and at least one is at 0, and the next tick leaves every channel
unchanged, one higher or one lower. -/
theorem C20_wheel_edge (n : Nat) :
    (((timerISR^[n] rainbowSeed).c0 : Int) = Brightness ∨
      ((timerISR^[n] rainbowSeed).c1 : Int) = Brightness ∨
      ((timerISR^[n] rainbowSeed).c2 : Int) = Brightness) ∧
    ((timerISR^[n] rainbowSeed).c0 = 0 ∨ (timerISR^[n] rainbowSeed).c1 = 0 ∨
      (timerISR^[n] rainbowSeed).c2 = 0) ∧
    NoWrap (timerISR^[n] rainbowSeed) (timerISR^[n + 1] rainbowSeed) := by
  rw [Function.iterate_succ_apply', iterate_timerISR_seed]
  have hm : n % 1528 < 1528 := Nat.mod_lt _ (by decide)
  have hb := wheelState_bounds _ hm
  refine ⟨?_, hb.2.2.2.2, wheelState_tick_exact _ hm⟩
  simp only [Brightness]
  omega

end NeoPixels
